import Mathlib

/-!
Verification development for the `cohere-db` schema-extraction core.

This file gives a shallow embedding (in Lean 4) of the schema normalization
layer of the repository: the unified schema model, the per-source conversion
routines of `UnifiedSchemaConverter` (src/extractors/index.ts, concatenated
into `src/extractors/postgres.ts` here), the Prisma relation-resolution pass
(`PrismaExtractor.parseRelations` in src/extractors/prisma.ts), and the
document-sampling inference engines of the MongoDB and Firebase extractors
(src/extractors/mysql.ts holds both in this snapshot).

TypeScript `string | null` / optional fields are embedded as `Option String`;
JavaScript truthiness on strings (`""` and `null`/`undefined` are falsy) is
made explicit through `strTruthy`/`jsOr`.  JavaScript `Map`/`Set` values are
embedded as insertion-ordered association lists / duplicate-free lists, which
matches the iteration-order semantics the code relies on.
-/

/-- Truthiness of a JS `string | null | undefined` value: `null`, `undefined`
and the empty string are falsy. -/
def strTruthy : Option String → Bool
  | none => false
  | some s => s ≠ ""

/-- JS `a || b` on string-ish values: `b` (as-is) when `a` is falsy. -/
def jsOr (a b : Option String) : Option String :=
  if strTruthy a then a else b

/-- JS `a || b || null` (equally `a || b || undefined`) on string-ish
values: first truthy operand, else `none`. -/
def jsOrNull (a b : Option String) : Option String :=
  if strTruthy a then a else if strTruthy b then b else none

/-- JS `Set.add`: insertion-ordered, ignores duplicates. -/
def addIfAbsent (l : List String) (x : String) : List String :=
  if x ∈ l then l else l ++ [x]

/-- Insertion into a list sorted by `le` (used to model `Array.sort`). -/
def orderedInsert (le : α → α → Bool) (x : α) : List α → List α
  | [] => [x]
  | y :: ys => if le x y then x :: y :: ys else y :: orderedInsert le x ys

/-- Insertion sort by `le` (used to model `Array.sort` with a comparator). -/
def insertionSortBy (le : α → α → Bool) : List α → List α
  | [] => []
  | x :: xs => orderedInsert le x (insertionSortBy le xs)

/-! ## Unified schema model (`index.ts`)

`cardinality` is embedded as a `String` so that the closure invariant
(`cardinality ∈ {1:1, 1:N, N:1, N:M}`) is a real statement about the
produced values rather than a typing artifact. -/

/-- `UnifiedColumnInfo` of index.ts. -/
structure UnifiedColumnInfo where
  name : String
  type : String
  nullable : Bool
  default : Option String
  isPrimaryKey : Bool
  isUnique : Bool
  isForeignKey : Bool
  referencesTable : Option String
  referencesColumn : Option String
  onDelete : Option String
  onUpdate : Option String
  description : Option String
  deriving DecidableEq, Repr

/-- `UnifiedIndexInfo` of index.ts. -/
structure UnifiedIndexInfo where
  name : String
  columns : List String
  unique : Bool
  isPrimaryKey : Bool
  deriving DecidableEq, Repr

/-- `UnifiedRelationInfo` of index.ts. -/
structure UnifiedRelationInfo where
  fromTable : String
  fromColumn : String
  toTable : String
  toColumn : String
  cardinality : String
  onDelete : Option String
  onUpdate : Option String
  deriving DecidableEq, Repr

/-- `UnifiedTableInfo` of index.ts. -/
structure UnifiedTableInfo where
  name : String
  description : Option String
  columns : List UnifiedColumnInfo
  indexes : List UnifiedIndexInfo
  relations : List UnifiedRelationInfo
  primaryKey : List String
  deriving DecidableEq, Repr

/-- `UnifiedSchemaInfo` of index.ts. -/
structure UnifiedSchemaInfo where
  tables : List UnifiedTableInfo
  databaseType : String
  schemaName : Option String
  source : Option String
  deriving DecidableEq, Repr

/-- The four enumerated cardinality values of the unified model. -/
def knownCardinalities : List String := ["1:1", "1:N", "N:1", "N:M"]

/-! ## Relational source shapes (postgres.ts / mysql.ts duck-typed union)

`convertTable` receives `table: any` and reads `description`/`comment`,
`default`/`defaultValue`, `description`/`comment` pairs, so the embedded
relational column/table carry both spellings (the ones a given dialect does
not produce stay `none`). -/

/-- Relational column as read by `convertTable` (postgres `ColumnInfo` /
mysql `MySQLColumnInfo`). -/
structure RelColumn where
  name : String
  type : String
  nullable : Bool
  default : Option String
  defaultValue : Option String
  description : Option String
  comment : Option String
  deriving DecidableEq, Repr

/-- Relational index (postgres `IndexInfo` / mysql `MySQLIndexInfo`). -/
structure RelIndex where
  name : String
  columns : List String
  unique : Bool
  isPrimaryKey : Bool
  deriving DecidableEq, Repr

/-- Relational foreign key (postgres `ForeignKeyInfo` / mysql
`MySQLForeignKeyInfo`). -/
structure RelForeignKey where
  column : String
  referencesTable : String
  referencesColumn : String
  onDelete : Option String
  onUpdate : Option String
  deriving DecidableEq, Repr

/-- Relational table (postgres `TableInfo` / mysql `MySQLTableInfo`). -/
structure RelTable where
  name : String
  columns : List RelColumn
  indexes : List RelIndex
  foreignKeys : List RelForeignKey
  primaryKey : List String
  description : Option String
  comment : Option String
  deriving DecidableEq, Repr

/-- `SchemaInfo` of postgres.ts. -/
structure PostgresSchemaInfo where
  tables : List RelTable
  schemaName : String
  deriving DecidableEq, Repr

/-- `MySQLSchemaInfo` of mysql.ts. -/
structure MySQLSchemaInfo where
  tables : List RelTable
  databaseName : String
  deriving DecidableEq, Repr

/-- JS `Map` built by `foreignKeys.forEach((fk) => fkMap.set(fk.column, fk))`
followed by `fkMap.get(name)`: the last foreign key with the given source
column wins. -/
def fkLookup (foreignKeys : List RelForeignKey) (name : String) :
    Option RelForeignKey :=
  foreignKeys.foldl (fun acc fk => if fk.column = name then some fk else acc) none

/-- Column set covered by unique indexes (the `uniqueColumns` JS `Set` of
`convertTable`). -/
def uniqueColumnsOf (indexes : List RelIndex) : List String :=
  indexes.foldl
    (fun acc idx => if idx.unique then idx.columns.foldl addIfAbsent acc else acc)
    []

/-- `convertTable` of index.ts (shared by the postgres and mysql paths). -/
def convertTable (table : RelTable) (foreignKeys : List RelForeignKey)
    (indexes : List RelIndex) : UnifiedTableInfo :=
  let uniqueColumns := uniqueColumnsOf indexes
  { name := table.name
    description := jsOr table.description table.comment
    columns := table.columns.map fun col =>
      let fk := fkLookup foreignKeys col.name
      { name := col.name
        type := col.type
        nullable := col.nullable
        default := jsOrNull col.default col.defaultValue
        isPrimaryKey := decide (col.name ∈ table.primaryKey)
        isUnique := decide (col.name ∈ uniqueColumns)
        isForeignKey := fk.isSome
        referencesTable := fk.map (·.referencesTable)
        referencesColumn := fk.map (·.referencesColumn)
        onDelete := fk.bind (·.onDelete)
        onUpdate := fk.bind (·.onUpdate)
        description := jsOrNull col.description col.comment }
    indexes := indexes.map fun idx =>
      { name := idx.name
        columns := idx.columns
        unique := idx.unique
        isPrimaryKey := idx.isPrimaryKey }
    relations := foreignKeys.map fun fk =>
      { fromTable := table.name
        fromColumn := fk.column
        toTable := fk.referencesTable
        toColumn := fk.referencesColumn
        cardinality := "N:1"
        onDelete := fk.onDelete
        onUpdate := fk.onUpdate }
    primaryKey := table.primaryKey }

/-- `convertPostgres` of index.ts. -/
def convertPostgres (schema : PostgresSchemaInfo) : UnifiedSchemaInfo :=
  let source :=
    if schema.schemaName ≠ "" then "postgresql://" ++ schema.schemaName
    else "postgresql"
  { tables := schema.tables.map fun t => convertTable t t.foreignKeys t.indexes
    databaseType := "postgresql"
    schemaName := some schema.schemaName
    source := some source }

/-- `convertMySQL` of index.ts. -/
def convertMySQL (schema : MySQLSchemaInfo) : UnifiedSchemaInfo :=
  let source :=
    if schema.databaseName ≠ "" then "mysql://" ++ schema.databaseName
    else "mysql"
  { tables := schema.tables.map fun t => convertTable t t.foreignKeys t.indexes
    databaseType := "mysql"
    schemaName := some schema.databaseName
    source := some source }

/-! ## SQLite source shapes (sqlite.ts is consumed through `convertSQLite`) -/

/-- SQLite column as read by `convertSQLiteTable`. -/
structure SQLiteColumn where
  name : String
  type : String
  nullable : Bool
  default : Option String
  primaryKey : Bool
  deriving DecidableEq, Repr

/-- SQLite foreign key row (`PRAGMA foreign_key_list` shape); the TS fields
`from`/`to` are spelled `fromCol`/`toCol` here because `from` and `to` are
Lean keywords. -/
structure SQLiteForeignKey where
  fromCol : String
  table : String
  toCol : String
  onDelete : Option String
  onUpdate : Option String
  deriving DecidableEq, Repr

/-- SQLite table as read by `convertSQLiteTable`. -/
structure SQLiteTable where
  name : String
  columns : List SQLiteColumn
  indexes : List RelIndex
  foreignKeys : List SQLiteForeignKey
  primaryKey : List String
  deriving DecidableEq, Repr

/-- `SQLiteSchemaInfo` of sqlite.ts. -/
structure SQLiteSchemaInfo where
  tables : List SQLiteTable
  databasePath : String
  deriving DecidableEq, Repr

/-- The `fkMap` of `convertSQLiteTable` (`fkMap.set(fk.from, fk)`): last
foreign key with the given source column wins. -/
def sqliteFkLookup (foreignKeys : List SQLiteForeignKey) (name : String) :
    Option SQLiteForeignKey :=
  foreignKeys.foldl (fun acc fk => if fk.fromCol = name then some fk else acc) none

/-- The `uniqueColumns` set of `convertSQLiteTable`. -/
def sqliteUniqueColumnsOf (indexes : List RelIndex) : List String :=
  indexes.foldl
    (fun acc idx => if idx.unique then idx.columns.foldl addIfAbsent acc else acc)
    []

/-- `convertSQLiteTable` of index.ts. -/
def convertSQLiteTable (table : SQLiteTable) : UnifiedTableInfo :=
  let uniqueColumns := sqliteUniqueColumnsOf table.indexes
  { name := table.name
    description := none
    columns := table.columns.map fun col =>
      let fk := sqliteFkLookup table.foreignKeys col.name
      { name := col.name
        type := col.type
        nullable := col.nullable
        default := jsOrNull col.default none
        isPrimaryKey := decide (col.name ∈ table.primaryKey)
        isUnique := decide (col.name ∈ uniqueColumns)
        isForeignKey := fk.isSome
        referencesTable := fk.map (·.table)
        referencesColumn := fk.map (·.toCol)
        onDelete := fk.bind (·.onDelete)
        onUpdate := fk.bind (·.onUpdate)
        description := none }
    indexes := table.indexes.map fun idx =>
      { name := idx.name
        columns := idx.columns
        unique := idx.unique
        isPrimaryKey := idx.isPrimaryKey }
    relations := table.foreignKeys.map fun fk =>
      { fromTable := table.name
        fromColumn := fk.fromCol
        toTable := fk.table
        toColumn := fk.toCol
        cardinality := "N:1"
        onDelete := fk.onDelete
        onUpdate := fk.onUpdate }
    primaryKey := table.primaryKey }

/-- `convertSQLite` of index.ts. -/
def convertSQLite (schema : SQLiteSchemaInfo) : UnifiedSchemaInfo :=
  { tables := schema.tables.map convertSQLiteTable
    databaseType := "sqlite"
    schemaName := none
    source := some (if schema.databasePath ≠ "" then schema.databasePath else "sqlite") }

/-! ## Prisma source shapes and relation resolution (prisma.ts) -/

/-- `PrismaColumnInfo` of prisma.ts. -/
structure PrismaColumnInfo where
  name : String
  type : String
  isList : Bool
  isOptional : Bool
  isUnique : Bool
  isId : Bool
  isDefault : Bool
  defaultValue : Option String
  isRelation : Bool
  relationName : Option String
  relationFields : List String
  relationReferences : List String
  onDelete : Option String
  deriving DecidableEq, Repr

/-- `PrismaIndexInfo` of prisma.ts. -/
structure PrismaIndexInfo where
  name : String
  columns : List String
  unique : Bool
  deriving DecidableEq, Repr

/-- `PrismaRelationInfo` of prisma.ts (`type` is the cardinality tag
string). -/
structure PrismaRelationInfo where
  name : String
  fromTable : String
  fromFields : List String
  toTable : String
  toFields : List String
  type : String
  onDelete : Option String
  deriving DecidableEq, Repr

/-- `PrismaTableInfo` of prisma.ts. -/
structure PrismaTableInfo where
  name : String
  description : Option String
  columns : List PrismaColumnInfo
  indexes : List PrismaIndexInfo
  relations : List PrismaRelationInfo
  primaryKey : List String
  uniqueConstraints : List (List String)
  deriving DecidableEq, Repr

/-- `generator` block of `PrismaSchemaInfo`. -/
structure PrismaGenerator where
  provider : String
  output : String
  deriving DecidableEq, Repr

/-- `datasource` block of `PrismaSchemaInfo`. -/
structure PrismaDatasource where
  provider : String
  url : String
  deriving DecidableEq, Repr

/-- `PrismaSchemaInfo` of prisma.ts. -/
structure PrismaSchemaInfo where
  tables : List PrismaTableInfo
  datasource : PrismaDatasource
  generator : PrismaGenerator
  deriving DecidableEq, Repr

/-- The `modelMap` of `parseRelations` (`new Map(models.map(m => [m.name, m]))`):
the last model with a given name wins. -/
def modelLookup (models : List PrismaTableInfo) (name : String) :
    Option PrismaTableInfo :=
  models.foldl (fun acc m => if m.name = name then some m else acc) none

/-- First loop of `parseRelations`: for implicit relation fields without an
explicit `@relation(name:)`, record `relationFields`/`relationReferences`
from the first reciprocal relation column of the related model.  (The loop
mutates only `relationFields`/`relationReferences`, which no lookup in
`parseRelations` reads, so the in-place TS mutation is embedded as one
simultaneous map.) -/
def pass2UpdateColumns (models : List PrismaTableInfo) : List PrismaTableInfo :=
  models.map fun m =>
    { m with
      columns := m.columns.map fun c =>
        if c.isRelation ∧ c.relationName = none then
          match modelLookup models c.type with
          | some relatedModel =>
            match relatedModel.columns.find?
                (fun rc => rc.isRelation && decide (rc.type = m.name)) with
            | some rc =>
              { c with relationFields := [c.name], relationReferences := [rc.name] }
            | none => c
          | none => c
        else c }

/-- Relation built by the second loop of `parseRelations` for one relation
column, mirroring the source statement order: the initial
list/scalar classification, then the many-to-many override (reciprocal list
column on the related model), then the optional/list override. -/
def prismaRelationFor (models : List PrismaTableInfo) (m : PrismaTableInfo)
    (c : PrismaColumnInfo) : Option PrismaRelationInfo :=
  if c.isRelation then
    match modelLookup models c.type with
    | some relatedModel =>
      let t1 := if c.isList then "one-to-many" else "one-to-one"
      let t2 :=
        if relatedModel.columns.any
            (fun rc => rc.isRelation && decide (rc.type = m.name) && rc.isList)
        then "many-to-many" else t1
      let t3 :=
        if c.isOptional || c.isList then
          if c.isList then "one-to-many" else "many-to-one"
        else t2
      let rname :=
        match c.relationName with
        | some s => if s ≠ "" then s else m.name ++ "_" ++ c.name
        | none => m.name ++ "_" ++ c.name
      some
        { name := rname
          fromTable := m.name
          fromFields := [c.name]
          toTable := relatedModel.name
          toFields := relatedModel.primaryKey
          type := t3
          onDelete := c.onDelete }
    | none => none
  else none

/-- `PrismaExtractor.parseRelations` (pass 2 of the Prisma parser), as a pure
function on the pass-1 model list. -/
def parseRelations (models : List PrismaTableInfo) : List PrismaTableInfo :=
  let ms := pass2UpdateColumns models
  ms.map fun m =>
    { m with relations := m.relations ++ m.columns.filterMap (prismaRelationFor ms m) }

/-- `mapRelationCardinality` of index.ts (the `switch` with the
`one-to-one`/`1:1` fall-through and the `1:N` default). -/
def mapRelationCardinality (type : String) : String :=
  if type = "one-to-one" ∨ type = "1:1" then "1:1"
  else if type = "one-to-many" then "1:N"
  else if type = "many-to-one" then "N:1"
  else if type = "many-to-many" then "N:M"
  else "1:N"

/-- `convertPrisma` of index.ts. -/
def convertPrisma (schema : PrismaSchemaInfo) : UnifiedSchemaInfo :=
  let source :=
    if schema.generator.output ≠ "" then schema.generator.output else "prisma"
  { tables := schema.tables.map fun table =>
      { name := table.name
        description := jsOrNull table.description none
        columns := table.columns.map fun col =>
          { name := col.name
            type := col.type
            nullable := col.isOptional
            default := col.defaultValue
            isPrimaryKey := decide (col.name ∈ table.primaryKey)
            isUnique := col.isUnique
            isForeignKey := col.isRelation
            referencesTable := if col.isRelation then some col.type else none
            referencesColumn := col.relationReferences.head?
            onDelete := jsOrNull col.onDelete none
            onUpdate := none
            description := none }
        indexes := table.indexes.map fun idx =>
          { name := idx.name
            columns := idx.columns
            unique := idx.unique
            isPrimaryKey := false }
        relations := table.relations.map fun rel =>
          { fromTable := rel.fromTable
            fromColumn := rel.fromFields.headD ""
            toTable := rel.toTable
            toColumn := rel.toFields.headD ""
            cardinality := mapRelationCardinality rel.type
            onDelete := jsOrNull rel.onDelete none
            onUpdate := none }
        primaryKey := table.primaryKey }
    databaseType := "prisma"
    schemaName := some schema.generator.output
    source := some source }

/-! ## Drizzle source shapes (drizzle.ts) -/

/-- `DrizzleColumnInfo` of drizzle.ts. -/
structure DrizzleColumnInfo where
  name : String
  type : String
  isList : Bool
  isOptional : Bool
  isUnique : Bool
  isPrimaryKey : Bool
  isDefault : Bool
  defaultValue : Option String
  isRelation : Bool
  relationName : Option String
  onDelete : Option String
  deriving DecidableEq, Repr

/-- `DrizzleIndexInfo` of drizzle.ts. -/
structure DrizzleIndexInfo where
  name : String
  columns : List String
  unique : Bool
  deriving DecidableEq, Repr

/-- `DrizzleRelationInfo` of drizzle.ts (`type` is the cardinality tag
string). -/
structure DrizzleRelationInfo where
  name : String
  fromTable : String
  fromColumns : List String
  toTable : String
  toColumns : List String
  type : String
  onDelete : Option String
  deriving DecidableEq, Repr

/-- `DrizzleTableInfo` of drizzle.ts. -/
structure DrizzleTableInfo where
  name : String
  description : Option String
  schema : Option String
  columns : List DrizzleColumnInfo
  indexes : List DrizzleIndexInfo
  relations : List DrizzleRelationInfo
  primaryKey : List String
  uniqueConstraints : List (List String)
  deriving DecidableEq, Repr

/-- `DrizzleSchemaInfo` of drizzle.ts (`dialect` is one of
`postgresql`/`mysql`/`sqlite`). -/
structure DrizzleSchemaInfo where
  tables : List DrizzleTableInfo
  dialect : String
  deriving DecidableEq, Repr

/-- `convertDrizzle` of index.ts. -/
def convertDrizzle (schema : DrizzleSchemaInfo) : UnifiedSchemaInfo :=
  { tables := schema.tables.map fun table =>
      { name := table.name
        description := jsOrNull table.description none
        columns := table.columns.map fun col =>
          { name := col.name
            type := col.type
            nullable := col.isOptional
            default := col.defaultValue
            isPrimaryKey := col.isPrimaryKey
            isUnique := col.isUnique
            isForeignKey := col.isRelation
            referencesTable := jsOrNull col.relationName none
            referencesColumn := none
            onDelete := jsOrNull col.onDelete none
            onUpdate := none
            description := none }
        indexes := table.indexes.map fun idx =>
          { name := idx.name
            columns := idx.columns
            unique := idx.unique
            isPrimaryKey := false }
        relations := table.relations.map fun rel =>
          { fromTable := rel.fromTable
            fromColumn := rel.fromColumns.headD ""
            toTable := rel.toTable
            toColumn := rel.toColumns.headD ""
            cardinality := mapRelationCardinality rel.type
            onDelete := jsOrNull rel.onDelete none
            onUpdate := none }
        primaryKey := table.primaryKey }
    databaseType := "drizzle"
    schemaName := some schema.dialect
    source := some schema.dialect }

/-! ## Sampled documents (MongoDB, mysql.ts second half)

BSON values are embedded as a mutual inductive family (`MVal` values,
`MList` arrays, `MObj` documents as insertion-ordered key/value lists) so
that the recursive walk of `analyzeObject` is structurally recursive.
JS numbers are embedded as `Rat`; `Number.isInteger` is the denominator
test. -/

mutual
/-- A sampled BSON value as classified by `MongoDBExtractor.getMongoType`. -/
inductive MVal : Type where
  | vnull : MVal
  | vundef : MVal
  | vnum (value : Rat) : MVal
  | vstr (value : String) : MVal
  | vbool (value : Bool) : MVal
  | varr (items : MList) : MVal
  | vobj (fields : MObj) : MVal
  | vObjectId : MVal
  | vDate : MVal
  | vBinary : MVal
  | vDecimal128 : MVal

/-- A BSON array. -/
inductive MList : Type where
  | nil : MList
  | cons (head : MVal) (tail : MList) : MList

/-- A BSON document: key/value pairs in insertion order
(`Object.entries`). -/
inductive MObj : Type where
  | nil : MObj
  | cons (key : String) (value : MVal) (tail : MObj) : MObj
end

/-- `MongoDBExtractor.getMongoType`. -/
def getMongoType : MVal → String
  | .vnull => "null"
  | .vundef => "undefined"
  | .vObjectId => "ObjectId"
  | .vDate => "Date"
  | .vBinary => "Binary"
  | .vDecimal128 => "Decimal128"
  | .varr _ => "Array"
  | .vstr _ => "String"
  | .vnum x => if x.den = 1 then "Int" else "Double"
  | .vbool _ => "Boolean"
  | .vobj _ => "Object"

/-- The per-field accumulating record of `inferSchemaFromDocuments`
(`types` is the JS `Set` in insertion order). -/
structure MongoFieldAcc where
  types : List String
  nullCount : Nat
  isArray : Bool
  samples : List MVal

/-- The fresh accumulator installed by `fieldMap.set(fieldName, {...})`. -/
def emptyMongoAcc : MongoFieldAcc :=
  { types := [], nullCount := 0, isArray := false, samples := [] }

/-- JS `Map.get` on an insertion-ordered association list. -/
def fmFind : List (String × α) → String → Option α
  | [], _ => none
  | (k, a) :: rest, f => if k = f then some a else fmFind rest f

/-- `if (!fieldMap.has(k)) fieldMap.set(k, empty)`. -/
def fmEnsure (empty : α) (m : List (String × α)) (k : String) :
    List (String × α) :=
  match fmFind m k with
  | some _ => m
  | none => m ++ [(k, empty)]

/-- In-place mutation of the entry at `k` (JS objects are aliased, so
`fieldMap.get(k)!` followed by field assignments updates the stored entry). -/
def fmModify : List (String × α) → String → (α → α) → List (String × α)
  | [], _, _ => []
  | (k, a) :: rest, f, g =>
    if k = f then (k, g a) :: rest else (k, a) :: fmModify rest f g

/-- The non-recursive part of one `analyzeObject` loop iteration: how the
accumulator of the current field path is updated for one observed value
(recursion into plain sub-objects is done by `analyzeEntry`). -/
def mongoStepAcc (v : MVal) (a : MongoFieldAcc) : MongoFieldAcc :=
  match v with
  | .vnull | .vundef =>
    { a with nullCount := a.nullCount + 1, types := addIfAbsent a.types "null" }
  | .varr items =>
    let ts := addIfAbsent a.types "Array"
    let ts :=
      match items with
      | .nil => ts
      | .cons h _ => addIfAbsent ts ("Array<" ++ getMongoType h ++ ">")
    { a with isArray := true, types := ts }
  | .vobj _ => { a with types := addIfAbsent a.types "Object" }
  | .vObjectId | .vDate | .vBinary | .vDecimal128 =>
    { a with types := addIfAbsent a.types (getMongoType v) }
  | .vstr _ | .vnum _ | .vbool _ =>
    let t := getMongoType v
    { a with
      types := addIfAbsent a.types t
      samples :=
        if a.samples.length < 3 && !(t = "null" || t = "undefined") then
          a.samples ++ [v]
        else a.samples }

/-- The accumulating field map of `inferSchemaFromDocuments`. -/
abbrev MongoFieldMap := List (String × MongoFieldAcc)

mutual
/-- `MongoDBExtractor.analyzeObject`: walk a document's entries under path
`pfx` (the TS `prefix` argument), updating the field map. -/
def analyzeObj (pfx : String) (m : MongoFieldMap) : MObj → MongoFieldMap
  | .nil => m
  | .cons k v rest => analyzeObj pfx (analyzeEntry pfx m k v) rest

/-- One iteration of the `analyzeObject` loop for entry `(k, v)`. -/
def analyzeEntry (pfx : String) (m : MongoFieldMap) (k : String) (v : MVal) :
    MongoFieldMap :=
  let fieldName := if pfx = "" then k else pfx ++ "." ++ k
  let m2 := fmModify (fmEnsure emptyMongoAcc m fieldName) fieldName (mongoStepAcc v)
  match v with
  | .vobj sub => analyzeObj fieldName m2 sub
  | _ => m2
end

/-- `determinePrimaryType` (textually identical in the MongoDB and Firebase
extractors, so shared here). -/
def determinePrimaryType : List String → String
  | [] => "Mixed"
  | [t] => t
  | types =>
    match types.filter (fun t => t ≠ "null") with
    | [t] => t
    | [] => "null"
    | nonNull => "Mixed(" ++ String.intercalate "|" nonNull ++ ")"

/-- `MongoDBFieldInfo` of the MongoDB extractor. -/
structure MongoDBFieldInfo where
  name : String
  type : String
  nullable : Bool
  isArray : Bool
  sampleValues : List MVal

/-- Field descriptor built from one accumulator entry in
`inferSchemaFromDocuments`. -/
def mongoFieldInfoOfEntry (e : String × MongoFieldAcc) : MongoDBFieldInfo :=
  { name := e.1
    type := determinePrimaryType e.2.types
    nullable := decide (e.2.nullCount > 0)
    isArray := e.2.isArray
    sampleValues := e.2.samples.take 3 }

/-- `MongoDBExtractor.inferSchemaFromDocuments`. -/
def mongoInferSchemaFromDocuments (documents : List MObj) :
    List MongoDBFieldInfo :=
  match documents with
  | [] => []
  | _ =>
    let fieldMap := documents.foldl (fun m doc => analyzeObj "" m doc) []
    insertionSortBy (fun a b => decide (a.name ≤ b.name))
      (fieldMap.map mongoFieldInfoOfEntry)

/-- `JSON.stringify` as applied to retained sample values.  Samples are only
ever pushed in the scalar branch of `analyzeObject`, so only the scalar
cases are ever reached from the converters; string escaping and float
formatting are approximated. -/
def mvalStringify : MVal → String
  | .vnull => "null"
  | .vundef => "undefined"
  | .vnum x => toString x
  | .vstr s => "\"" ++ s ++ "\""
  | .vbool b => if b then "true" else "false"
  | .varr _ => "[]"
  | .vobj _ => "\x7b\x7d"
  | .vObjectId => "\"ObjectId\""
  | .vDate => "\"Date\""
  | .vBinary => "\"Binary\""
  | .vDecimal128 => "\"Decimal128\""

/-- One index of a MongoDB collection (`keys` is the index-spec object in
key order). -/
structure MongoDBIndexInfo where
  name : String
  keys : List (String × Int)
  unique : Bool

/-- `MongoDBCollectionInfo` of the MongoDB extractor. -/
structure MongoDBCollectionInfo where
  name : String
  documentCount : Nat
  fields : List MongoDBFieldInfo
  sampleSize : Nat
  indexes : List MongoDBIndexInfo

/-- `MongoDBSchemaInfo` of the MongoDB extractor. -/
structure MongoDBSchemaInfo where
  collections : List MongoDBCollectionInfo
  databaseName : String
  connectionString : String

/-- The table built for one collection inside `convertMongoDB` of index.ts. -/
def mongoTableOfCollection (collection : MongoDBCollectionInfo) :
    UnifiedTableInfo :=
  { name := collection.name
    description := some ("MongoDB collection (" ++ toString collection.documentCount
      ++ " documents, sampled " ++ toString collection.sampleSize ++ ")")
    columns := collection.fields.map fun field =>
      { name := field.name
        type := if field.isArray then field.type ++ "[]" else field.type
        nullable := field.nullable
        default := none
        isPrimaryKey := decide (field.name = "_id")
        isUnique := decide (field.name = "_id")
        isForeignKey := decide (field.type = "ObjectId") && decide (field.name ≠ "_id")
        referencesTable := none
        referencesColumn := none
        onDelete := none
        onUpdate := none
        description :=
          match field.sampleValues with
          | [] => none
          | v :: _ => some ("Sample: " ++ mvalStringify v) }
    indexes := collection.indexes.map fun idx =>
      { name := idx.name
        columns := idx.keys.map Prod.fst
        unique := idx.unique
        isPrimaryKey := decide (idx.name = "_id_") }
    relations := []
    primaryKey := ["_id"] }

/-- `convertMongoDB` of index.ts. -/
def convertMongoDB (schema : MongoDBSchemaInfo) : UnifiedSchemaInfo :=
  { tables := schema.collections.map mongoTableOfCollection
    databaseType := "mongodb"
    schemaName := some schema.databaseName
    source := some (if schema.databaseName ≠ "" then
      "mongodb://" ++ schema.databaseName else "mongodb") }

/-! ## Sampled documents (Firebase Firestore, mysql.ts third part) -/

mutual
/-- A sampled Firestore value as classified by
`FirebaseExtractor.getFirestoreType`. -/
inductive FVal : Type where
  | fnull : FVal
  | fundef : FVal
  | fnum (value : Rat) : FVal
  | fstr (value : String) : FVal
  | fbool (value : Bool) : FVal
  | farr (items : FList) : FVal
  | fmap (fields : FObj) : FVal
  | fref : FVal
  | ftimestamp : FVal
  | fgeopoint : FVal

/-- A Firestore array. -/
inductive FList : Type where
  | nil : FList
  | cons (head : FVal) (tail : FList) : FList

/-- A Firestore document/map: key/value pairs in insertion order. -/
inductive FObj : Type where
  | nil : FObj
  | cons (key : String) (value : FVal) (tail : FObj) : FObj
end

/-- `FirebaseExtractor.getFirestoreType` (note the source labels every
number `Number`, integral or not). -/
def getFirestoreType : FVal → String
  | .fnull => "null"
  | .fundef => "undefined"
  | .fref => "Reference"
  | .ftimestamp => "Timestamp"
  | .fgeopoint => "GeoPoint"
  | .farr _ => "Array"
  | .fstr _ => "String"
  | .fnum _ => "Number"
  | .fbool _ => "Boolean"
  | .fmap _ => "Map"

/-- The per-field accumulating record of the Firebase
`inferSchemaFromDocuments`. -/
structure FbFieldAcc where
  types : List String
  nullCount : Nat
  isArray : Bool
  isReference : Bool
  samples : List FVal

/-- The fresh Firebase accumulator. -/
def emptyFbAcc : FbFieldAcc :=
  { types := [], nullCount := 0, isArray := false, isReference := false,
    samples := [] }

/-- The non-recursive part of one Firebase `analyzeObject` loop iteration
(branch order as in the source: null/undefined, array, Firestore reference,
object, scalar). -/
def fbStepAcc (v : FVal) (a : FbFieldAcc) : FbFieldAcc :=
  match v with
  | .fnull | .fundef =>
    { a with nullCount := a.nullCount + 1, types := addIfAbsent a.types "null" }
  | .farr items =>
    let ts := addIfAbsent a.types "Array"
    let ts :=
      match items with
      | .nil => ts
      | .cons h _ => addIfAbsent ts ("Array<" ++ getFirestoreType h ++ ">")
    { a with isArray := true, types := ts }
  | .fref => { a with isReference := true, types := addIfAbsent a.types "Reference" }
  | .fmap _ => { a with types := addIfAbsent a.types "Map" }
  | .ftimestamp | .fgeopoint =>
    { a with types := addIfAbsent a.types (getFirestoreType v) }
  | .fstr _ | .fnum _ | .fbool _ =>
    let t := getFirestoreType v
    { a with
      types := addIfAbsent a.types t
      samples :=
        if a.samples.length < 3 && t ≠ "null" then a.samples ++ [v]
        else a.samples }

/-- The accumulating field map of the Firebase inference. -/
abbrev FbFieldMap := List (String × FbFieldAcc)

mutual
/-- `FirebaseExtractor.analyzeObject`. -/
def fbAnalyzeObj (pfx : String) (m : FbFieldMap) : FObj → FbFieldMap
  | .nil => m
  | .cons k v rest => fbAnalyzeObj pfx (fbAnalyzeEntry pfx m k v) rest

/-- One iteration of the Firebase `analyzeObject` loop for entry `(k, v)`. -/
def fbAnalyzeEntry (pfx : String) (m : FbFieldMap) (k : String) (v : FVal) :
    FbFieldMap :=
  let fieldName := if pfx = "" then k else pfx ++ "." ++ k
  let m2 := fmModify (fmEnsure emptyFbAcc m fieldName) fieldName (fbStepAcc v)
  match v with
  | .fmap sub => fbAnalyzeObj fieldName m2 sub
  | _ => m2
end

/-- `FirebaseFieldInfo` of the Firebase extractor. -/
structure FirebaseFieldInfo where
  name : String
  type : String
  nullable : Bool
  isArray : Bool
  isReference : Bool
  sampleValues : List FVal

/-- Field descriptor built from one accumulator entry in the Firebase
`inferSchemaFromDocuments`. -/
def fbFieldInfoOfEntry (e : String × FbFieldAcc) : FirebaseFieldInfo :=
  { name := e.1
    type := determinePrimaryType e.2.types
    nullable := decide (e.2.nullCount > 0)
    isArray := e.2.isArray
    isReference := e.2.isReference
    sampleValues := e.2.samples.take 3 }

/-- `FirebaseExtractor.inferSchemaFromDocuments`; a snapshot is `none` when
its `data()` is absent, and such documents are skipped. -/
def fbInferSchemaFromDocuments (documents : List (Option FObj)) :
    List FirebaseFieldInfo :=
  match documents with
  | [] => []
  | _ =>
    let fieldMap := documents.foldl
      (fun m doc =>
        match doc with
        | some data => fbAnalyzeObj "" m data
        | none => m) []
    insertionSortBy (fun a b => decide (a.name ≤ b.name))
      (fieldMap.map fbFieldInfoOfEntry)

/-- `JSON.stringify` on retained Firestore sample values (scalars only in
practice, as for MongoDB). -/
def fvalStringify : FVal → String
  | .fnull => "null"
  | .fundef => "undefined"
  | .fnum x => toString x
  | .fstr s => "\"" ++ s ++ "\""
  | .fbool b => if b then "true" else "false"
  | .farr _ => "[]"
  | .fmap _ => "\x7b\x7d"
  | .fref => "\"Reference\""
  | .ftimestamp => "\"Timestamp\""
  | .fgeopoint => "\"GeoPoint\""

/-- `FirebaseCollectionInfo` of the Firebase extractor. -/
structure FirebaseCollectionInfo where
  name : String
  documentCount : Nat
  fields : List FirebaseFieldInfo
  sampleSize : Nat

/-- `FirebaseSchemaInfo` of the Firebase extractor. -/
structure FirebaseSchemaInfo where
  collections : List FirebaseCollectionInfo
  projectId : String

/-- The table built for one collection inside `convertFirebase` of
index.ts. -/
def fbTableOfCollection (collection : FirebaseCollectionInfo) :
    UnifiedTableInfo :=
  { name := collection.name
    description := some ("Firestore collection ("
      ++ toString collection.documentCount ++ " documents sampled)")
    columns := collection.fields.map fun field =>
      { name := field.name
        type := if field.isArray then field.type ++ "[]" else field.type
        nullable := field.nullable
        default := none
        isPrimaryKey := decide (field.name = "id") || decide (field.name = "_id")
        isUnique := decide (field.name = "id") || decide (field.name = "_id")
        isForeignKey := field.isReference
        referencesTable := none
        referencesColumn := none
        onDelete := none
        onUpdate := none
        description :=
          match field.sampleValues with
          | [] => none
          | v :: _ => some ("Sample: " ++ fvalStringify v) }
    indexes := []
    relations := []
    primaryKey := ["id"] }

/-- `convertFirebase` of index.ts. -/
def convertFirebase (schema : FirebaseSchemaInfo) : UnifiedSchemaInfo :=
  { tables := schema.collections.map fbTableOfCollection
    databaseType := "firebase"
    schemaName := some schema.projectId
    source := some (if schema.projectId ≠ "" then
      "firebase://" ++ schema.projectId else "firebase") }

/-! ## The normalizer dispatch (`UnifiedSchemaConverter.convert`) -/

/-- The seven source-type tags with a conversion routine. -/
def knownDatabaseTypes : List String :=
  ["postgresql", "mysql", "sqlite", "prisma", "drizzle", "mongodb", "firebase"]

/-- A source schema as accepted by `UnifiedSchemaConverter.convert`: one of
the seven well-formed source payloads, or any input whose `databaseType`
tag is not among the known ones (the `default:` case of the dispatch
`switch`; such an input carries no payload the converter ever reads). -/
inductive SourceSchemaInfo : Type where
  | postgres (schema : PostgresSchemaInfo)
  | mysql (schema : MySQLSchemaInfo)
  | sqlite (schema : SQLiteSchemaInfo)
  | prisma (schema : PrismaSchemaInfo)
  | drizzle (schema : DrizzleSchemaInfo)
  | mongodb (schema : MongoDBSchemaInfo)
  | firebase (schema : FirebaseSchemaInfo)
  | unknown (databaseType : String)
      (notKnown : databaseType ∉ knownDatabaseTypes)

/-- The `databaseType` tag the dispatch switches on. -/
def SourceSchemaInfo.databaseType : SourceSchemaInfo → String
  | .postgres _ => "postgresql"
  | .mysql _ => "mysql"
  | .sqlite _ => "sqlite"
  | .prisma _ => "prisma"
  | .drizzle _ => "drizzle"
  | .mongodb _ => "mongodb"
  | .firebase _ => "firebase"
  | .unknown t _ => t

/-- `UnifiedSchemaConverter.convert`: dispatch on the `databaseType` tag;
the `default:` branch throws `Unsupported database type: ...`. -/
def convert : SourceSchemaInfo → Except String UnifiedSchemaInfo
  | .postgres schema => .ok (convertPostgres schema)
  | .mysql schema => .ok (convertMySQL schema)
  | .sqlite schema => .ok (convertSQLite schema)
  | .prisma schema => .ok (convertPrisma schema)
  | .drizzle schema => .ok (convertDrizzle schema)
  | .mongodb schema => .ok (convertMongoDB schema)
  | .firebase schema => .ok (convertFirebase schema)
  | .unknown t _ => .error ("Unsupported database type: " ++ t)

/-! ## Hypothesis predicates and concrete fixtures

The predicates below are used to state claims (they are spec-side, not
source translations); the fixtures mirror the repository's regression-test
fixtures (`tests/extractor-regressions.ts`). -/

/-- A value `Number.isInteger` accepts, i.e. one `getMongoType` labels
`Int`. -/
def isIntVal (v : MVal) : Bool := getMongoType v == "Int"

/-- A JS `null`/`undefined` value. -/
def isNullishVal : MVal → Bool
  | .vnull => true
  | .vundef => true
  | _ => false

/-- Does the document bind key `f` (at top level) to a value satisfying
`p`? -/
def mobjHasBinding : MObj → String → (MVal → Bool) → Bool
  | .nil, _, _ => false
  | .cons k v rest, f, p =>
    (decide (k = f) && p v) || mobjHasBinding rest f p

/-- Do all top-level bindings of key `f` in the document satisfy `p`? -/
def mobjAllBindings : MObj → String → (MVal → Bool) → Bool
  | .nil, _, _ => true
  | .cons k v rest, f, p =>
    (!(decide (k = f)) || p v) && mobjAllBindings rest f p

/-- Are all top-level keys of the document nonempty? -/
def mobjKeysNonEmpty : MObj → Bool
  | .nil => true
  | .cons k _ rest => !(decide (k = "")) && mobjKeysNonEmpty rest

/-- The top-level values bound to key `f`, in document order. -/
def mobjValuesAt : MObj → String → List MVal
  | .nil, _ => []
  | .cons k v rest, f =>
    if k = f then v :: mobjValuesAt rest f else mobjValuesAt rest f

/-- Consistency of a drizzle source with its own parser's guarantee: the
per-column `isPrimaryKey` flags agree with the table's `primaryKey` list
(the drizzle pass 1 builds `primaryKey` from exactly the flagged
columns). -/
def drizzleConsistent : SourceSchemaInfo → Prop
  | .drizzle ds =>
    ∀ dt ∈ ds.tables, ∀ dc ∈ dt.columns,
      (dc.isPrimaryKey = true ↔ dc.name ∈ dt.primaryKey)
  | _ => True

/-- No sampled Firebase collection has a field literally named `_id`. -/
def firebaseNoUnderscoreId : SourceSchemaInfo → Prop
  | .firebase fs => ∀ c ∈ fs.collections, ∀ f ∈ c.fields, f.name ≠ "_id"
  | _ => True

/-- The `users` table of the repository's postgres regression fixture. -/
def sampleUsersTable : RelTable :=
  { name := "users"
    columns :=
      [{ name := "id", type := "uuid", nullable := false, default := none,
         defaultValue := none, description := some "PK", comment := none },
       { name := "organization_id", type := "uuid", nullable := false,
         default := none, defaultValue := none, description := some "FK",
         comment := none }]
    indexes :=
      [{ name := "users_pkey", columns := ["id"], unique := true,
         isPrimaryKey := true },
       { name := "users_org_idx", columns := ["organization_id"],
         unique := false, isPrimaryKey := false }]
    foreignKeys :=
      [{ column := "organization_id", referencesTable := "organizations",
         referencesColumn := "id", onDelete := some "CASCADE",
         onUpdate := none }]
    primaryKey := ["id"]
    description := some "Application users"
    comment := none }

/-- The postgres regression fixture schema. -/
def samplePostgresSchema : PostgresSchemaInfo :=
  { tables := [sampleUsersTable], schemaName := "public" }

/-- The `accounts` table of the mysql regression fixture, extended with a
`bio` column covered only by a non-unique index. -/
def sampleAccountsTable : RelTable :=
  { name := "accounts"
    columns :=
      [{ name := "id", type := "varchar(36)", nullable := false,
         default := none, defaultValue := none, description := none,
         comment := some "PK" },
       { name := "email", type := "varchar(255)", nullable := false,
         default := none, defaultValue := none, description := none,
         comment := some "" },
       { name := "bio", type := "text", nullable := true, default := none,
         defaultValue := none, description := none, comment := some "" }]
    indexes :=
      [{ name := "accounts_pkey", columns := ["id"], unique := true,
         isPrimaryKey := true },
       { name := "accounts_email_uniq", columns := ["email"], unique := true,
         isPrimaryKey := false },
       { name := "accounts_bio_idx", columns := ["bio"], unique := false,
         isPrimaryKey := false }]
    foreignKeys := []
    primaryKey := ["id"]
    description := none
    comment := some "Accounts" }

/-- Prisma pass-1 model `Post` with a list relation field `tags : Tag[]`. -/
def prismaModelPost : PrismaTableInfo :=
  { name := "Post"
    description := none
    columns :=
      [{ name := "tags", type := "Tag", isList := true, isOptional := false,
         isUnique := false, isId := false, isDefault := false,
         defaultValue := none, isRelation := true, relationName := none,
         relationFields := [], relationReferences := [], onDelete := none }]
    indexes := []
    relations := []
    primaryKey := []
    uniqueConstraints := [] }

/-- Prisma pass-1 model `Tag` with the reciprocal list relation field
`posts : Post[]`: list on both sides. -/
def prismaModelTag : PrismaTableInfo :=
  { name := "Tag"
    description := none
    columns :=
      [{ name := "posts", type := "Post", isList := true, isOptional := false,
         isUnique := false, isId := false, isDefault := false,
         defaultValue := none, isRelation := true, relationName := none,
         relationFields := [], relationReferences := [], onDelete := none }]
    indexes := []
    relations := []
    primaryKey := []
    uniqueConstraints := [] }

/-- A Firestore collection whose sampled documents contain a field named
`_id`. -/
def fbIdCollection : FirebaseCollectionInfo :=
  { name := "users"
    documentCount := 1
    fields :=
      [{ name := "_id", type := "String", nullable := false, isArray := false,
         isReference := false, sampleValues := [] }]
    sampleSize := 1 }

/-- A Firebase schema around `fbIdCollection`. -/
def fbIdSchema : FirebaseSchemaInfo :=
  { collections := [fbIdCollection], projectId := "demo" }

/-- A Firestore collection with no field named `id`. -/
def fbNoIdCollection : FirebaseCollectionInfo :=
  { name := "posts"
    documentCount := 1
    fields :=
      [{ name := "title", type := "String", nullable := false,
         isArray := false, isReference := false, sampleValues := [] }]
    sampleSize := 1 }

/-- A MongoDB collection whose sample was empty. -/
def emptyMongoCollection : MongoDBCollectionInfo :=
  { name := "events", documentCount := 0, fields := [], sampleSize := 0,
    indexes := [] }

/-- A Firestore collection whose sample was empty. -/
def emptyFbCollection : FirebaseCollectionInfo :=
  { name := "events", documentCount := 0, fields := [], sampleSize := 0 }

/-- Sample documents: `age` is the integer 30 in the first document and
absent from the second. -/
def ageAbsentDocs : List MObj :=
  [MObj.cons "age" (MVal.vnum 30) .nil, MObj.nil]

/-- Sample documents: `age` is the integer 30 in the first document and
`null` in the second. -/
def ageNullDocs : List MObj :=
  [MObj.cons "age" (MVal.vnum 30) .nil, MObj.cons "age" MVal.vnull .nil]

/-- The unified column `convertTable` produces for `organization_id` of the
postgres fixture. -/
def sampleOrgUnifiedColumn : UnifiedColumnInfo :=
  { name := "organization_id", type := "uuid", nullable := false,
    default := none, isPrimaryKey := false, isUnique := false,
    isForeignKey := true, referencesTable := some "organizations",
    referencesColumn := some "id", onDelete := some "CASCADE",
    onUpdate := none, description := some "FK" }

/-- The unified column `convertTable` produces for `id` of the postgres
fixture. -/
def sampleIdUnifiedColumn : UnifiedColumnInfo :=
  { name := "id", type := "uuid", nullable := false, default := none,
    isPrimaryKey := true, isUnique := true, isForeignKey := false,
    referencesTable := none, referencesColumn := none, onDelete := none,
    onUpdate := none, description := some "PK" }

/-- Accumulator obtained by folding the per-value update over a value
sequence, starting from the fresh accumulator (used to characterize the
final field-map entry of one field path). -/
def mongoAccOfValues (vs : List MVal) : MongoFieldAcc :=
  vs.foldl (fun a v => mongoStepAcc v a) emptyMongoAcc

/-- One field-map entry update as seen through `fmFind`: ensure-then-modify
produces `some` of the stepped accumulator. -/
def mongoStepOption (o : Option MongoFieldAcc) (v : MVal) :
    Option MongoFieldAcc :=
  some (mongoStepAcc v (o.getD emptyMongoAcc))

/-! ## Lemmas about the embedded JS collections -/

theorem mem_addIfAbsent {l : List String} {x a : String} :
    a ∈ addIfAbsent l x ↔ a ∈ l ∨ a = x := by
  by_cases hx : x ∈ l
  · simp only [addIfAbsent, if_pos hx]
    constructor
    · exact Or.inl
    · rintro (h | rfl)
      · exact h
      · exact hx
  · simp [addIfAbsent, if_neg hx]

theorem mem_foldl_addIfAbsent (cols : List String) (acc : List String)
    (a : String) :
    a ∈ cols.foldl addIfAbsent acc ↔ a ∈ acc ∨ a ∈ cols := by
  induction cols generalizing acc with
  | nil => simp
  | cons c cs ih =>
    simp only [List.foldl_cons, ih, mem_addIfAbsent, List.mem_cons]
    tauto

theorem mem_uniqueColumnsOf (idxs : List RelIndex) (a : String) :
    a ∈ uniqueColumnsOf idxs ↔
      ∃ idx ∈ idxs, idx.unique = true ∧ a ∈ idx.columns := by
  suffices h : ∀ acc : List String,
      a ∈ idxs.foldl
        (fun acc idx =>
          if idx.unique then idx.columns.foldl addIfAbsent acc else acc) acc ↔
      a ∈ acc ∨ ∃ idx ∈ idxs, idx.unique = true ∧ a ∈ idx.columns by
    simpa [uniqueColumnsOf] using h []
  induction idxs with
  | nil => simp
  | cons i is ih =>
    intro acc
    by_cases hu : i.unique <;>
      simp only [List.foldl_cons, hu, if_true, if_false, ih,
        mem_foldl_addIfAbsent, List.mem_cons] <;> aesop

theorem mem_sqliteUniqueColumnsOf (idxs : List RelIndex) (a : String) :
    a ∈ sqliteUniqueColumnsOf idxs ↔
      ∃ idx ∈ idxs, idx.unique = true ∧ a ∈ idx.columns :=
  mem_uniqueColumnsOf idxs a

theorem fkLookup_isSome_iff (fks : List RelForeignKey) (n : String) :
    (fkLookup fks n).isSome = true ↔ ∃ fk ∈ fks, fk.column = n := by
  suffices h : ∀ init : Option RelForeignKey,
      (fks.foldl (fun acc fk => if fk.column = n then some fk else acc)
        init).isSome = true ↔
      init.isSome = true ∨ ∃ fk ∈ fks, fk.column = n by
    simpa [fkLookup] using h none
  induction fks with
  | nil => simp
  | cons fk fks ih =>
    intro init
    by_cases h : fk.column = n <;>
      simp only [List.foldl_cons, h, if_true, if_false, ih, Option.isSome_some,
        List.mem_cons] <;> aesop

theorem sqliteFkLookup_isSome_iff (fks : List SQLiteForeignKey) (n : String) :
    (sqliteFkLookup fks n).isSome = true ↔ ∃ fk ∈ fks, fk.fromCol = n := by
  suffices h : ∀ init : Option SQLiteForeignKey,
      (fks.foldl (fun acc fk => if fk.fromCol = n then some fk else acc)
        init).isSome = true ↔
      init.isSome = true ∨ ∃ fk ∈ fks, fk.fromCol = n by
    simpa [sqliteFkLookup] using h none
  induction fks with
  | nil => simp
  | cons fk fks ih =>
    intro init
    by_cases h : fk.fromCol = n <;>
      simp only [List.foldl_cons, h, if_true, if_false, ih, Option.isSome_some,
        List.mem_cons] <;> aesop

theorem mapRelationCardinality_mem (ty : String) :
    mapRelationCardinality ty ∈ knownCardinalities := by
  simp only [mapRelationCardinality, knownCardinalities]
  split_ifs <;> simp

/-! ## Claim C5 -/

/-- C5 counterexample: the claim says every input string other than the four
spelled-out tags maps to `1:N`, but the `switch` also has a `1:1` case
(fall-through with `one-to-one`), so the input `"1:1"` — which is none of
the four tags — maps to `1:1`, not `1:N`. -/
theorem mapRelationCardinality_extra_case_counterexample :
    mapRelationCardinality "1:1" = "1:1" ∧
    ("1:1" : String) ≠ "one-to-one" ∧ ("1:1" : String) ≠ "one-to-many" ∧
    ("1:1" : String) ≠ "many-to-one" ∧ ("1:1" : String) ≠ "many-to-many" ∧
    mapRelationCardinality "1:1" ≠ "1:N" := by
  decide

/-- C5 (amended): the ORM-source cardinality mapping sends the five strings
`one-to-one` and `1:1` to `1:1`, `one-to-many` to `1:N`, `many-to-one` to
`N:1`, `many-to-many` to `N:M`, and every other input string to `1:N`. -/
theorem mapRelationCardinality_spec :
    mapRelationCardinality "one-to-one" = "1:1" ∧
    mapRelationCardinality "1:1" = "1:1" ∧
    mapRelationCardinality "one-to-many" = "1:N" ∧
    mapRelationCardinality "many-to-one" = "N:1" ∧
    mapRelationCardinality "many-to-many" = "N:M" ∧
    ∀ ty : String,
      ty ∉ ["one-to-one", "1:1", "one-to-many", "many-to-one",
        "many-to-many"] →
      mapRelationCardinality ty = "1:N" := by
  refine ⟨by decide, by decide, by decide, by decide, by decide, ?_⟩
  intro ty h
  simp only [List.mem_cons, List.mem_singleton, List.not_mem_nil, not_or] at h
  obtain ⟨h1, h2, h3, h4, h5, -⟩ := h
  simp [mapRelationCardinality, h1, h2, h3, h4, h5]

/-- C5 witness: an unrecognized tag falls through to `1:N`. -/
theorem mapRelationCardinality_spec_witness :
    ("belongs-to" : String) ∉ ["one-to-one", "1:1", "one-to-many",
      "many-to-one", "many-to-many"] ∧
    mapRelationCardinality "belongs-to" = "1:N" :=
  ⟨by decide, mapRelationCardinality_spec.2.2.2.2.2 "belongs-to" (by decide)⟩

/-! ## Claim C9 -/

/-- C9: `convert` returns a unified schema for every input whose
`databaseType` tag is one of the seven known kinds, and throws
`Unsupported database type: ...` for every input whose tag is not among
them; there is no fallback path. -/
theorem convert_total_on_known_tags :
    ∀ s : SourceSchemaInfo,
      (s.databaseType ∈ knownDatabaseTypes → ∃ u, convert s = Except.ok u) ∧
      (s.databaseType ∉ knownDatabaseTypes →
        convert s = Except.error
          ("Unsupported database type: " ++ s.databaseType)) := by
  intro s
  cases s with
  | unknown t h => exact ⟨fun hmem => absurd hmem h, fun _ => rfl⟩
  | postgres schema =>
    exact ⟨fun _ => ⟨_, rfl⟩,
      fun h => absurd (show ("postgresql" : String) ∈ knownDatabaseTypes by decide) h⟩
  | mysql schema =>
    exact ⟨fun _ => ⟨_, rfl⟩,
      fun h => absurd (show ("mysql" : String) ∈ knownDatabaseTypes by decide) h⟩
  | sqlite schema =>
    exact ⟨fun _ => ⟨_, rfl⟩,
      fun h => absurd (show ("sqlite" : String) ∈ knownDatabaseTypes by decide) h⟩
  | prisma schema =>
    exact ⟨fun _ => ⟨_, rfl⟩,
      fun h => absurd (show ("prisma" : String) ∈ knownDatabaseTypes by decide) h⟩
  | drizzle schema =>
    exact ⟨fun _ => ⟨_, rfl⟩,
      fun h => absurd (show ("drizzle" : String) ∈ knownDatabaseTypes by decide) h⟩
  | mongodb schema =>
    exact ⟨fun _ => ⟨_, rfl⟩,
      fun h => absurd (show ("mongodb" : String) ∈ knownDatabaseTypes by decide) h⟩
  | firebase schema =>
    exact ⟨fun _ => ⟨_, rfl⟩,
      fun h => absurd (show ("firebase" : String) ∈ knownDatabaseTypes by decide) h⟩

/-- C9 witness: a known tag converts, the unknown tag `mssql` throws. -/
theorem convert_total_on_known_tags_witness :
    (∃ u, convert (SourceSchemaInfo.postgres samplePostgresSchema) =
      Except.ok u) ∧
    convert (SourceSchemaInfo.unknown "mssql" (by decide)) =
      Except.error ("Unsupported database type: " ++ "mssql") :=
  ⟨(convert_total_on_known_tags (.postgres samplePostgresSchema)).1 (by decide),
   (convert_total_on_known_tags (.unknown "mssql" (by decide))).2 (by decide)⟩

/-! ## Claim C8 -/

/-- C8: an empty document sample is never an error: schema inference (both
document stores) yields an empty field list, and the corresponding unified
table has zero columns. -/
theorem empty_sample_infers_no_fields :
    mongoInferSchemaFromDocuments [] = [] ∧
    fbInferSchemaFromDocuments [] = [] ∧
    (∀ c : MongoDBCollectionInfo, c.fields = [] →
      (mongoTableOfCollection c).columns = []) ∧
    (∀ c : FirebaseCollectionInfo, c.fields = [] →
      (fbTableOfCollection c).columns = []) := by
  refine ⟨rfl, rfl, ?_, ?_⟩ <;> intro c hc <;>
    simp [mongoTableOfCollection, fbTableOfCollection, hc]

/-- C8 witness: concrete empty-sample collections get zero columns. -/
theorem empty_sample_infers_no_fields_witness :
    (mongoTableOfCollection emptyMongoCollection).columns = [] ∧
    (fbTableOfCollection emptyFbCollection).columns = [] :=
  ⟨empty_sample_infers_no_fields.2.2.1 emptyMongoCollection rfl,
   empty_sample_infers_no_fields.2.2.2 emptyFbCollection rfl⟩

/-! ## Claim C10 -/

/-- C10: document-sampled conversions assign a fixed non-empty `primaryKey`
list (`['_id']` for MongoDB, `['id']` for Firebase) to every collection's
table, independent of the inferred fields; when the sample yields zero
columns (MongoDB) or no field named `id` (Firebase), the `primaryKey` list
names a column that does not exist among the table's columns. -/
theorem document_store_synthetic_primary_key :
    (∀ s : MongoDBSchemaInfo, ∀ t ∈ (convertMongoDB s).tables,
      t.primaryKey = ["_id"]) ∧
    (∀ s : FirebaseSchemaInfo, ∀ t ∈ (convertFirebase s).tables,
      t.primaryKey = ["id"]) ∧
    (∀ c : MongoDBCollectionInfo, c.fields = [] →
      ∀ pk ∈ (mongoTableOfCollection c).primaryKey,
        pk ∉ (mongoTableOfCollection c).columns.map (·.name)) ∧
    (∀ c : FirebaseCollectionInfo, (∀ f ∈ c.fields, f.name ≠ "id") →
      ∀ pk ∈ (fbTableOfCollection c).primaryKey,
        pk ∉ (fbTableOfCollection c).columns.map (·.name)) := by
  refine ⟨?_, ?_, ?_, ?_⟩
  · intro s t ht
    simp only [convertMongoDB, List.mem_map] at ht
    obtain ⟨c, -, rfl⟩ := ht
    rfl
  · intro s t ht
    simp only [convertFirebase, List.mem_map] at ht
    obtain ⟨c, -, rfl⟩ := ht
    rfl
  · intro c hc pk hpk
    simp [mongoTableOfCollection, hc] at hpk ⊢
  · intro c hc pk hpk hmem
    simp only [fbTableOfCollection, List.mem_singleton] at hpk
    subst hpk
    simp only [fbTableOfCollection, List.map_map, List.mem_map] at hmem
    obtain ⟨f, hf, hname⟩ := hmem
    exact hc f hf hname

/-- C10 witness: the synthetic key is absent from the columns for an
empty-sample MongoDB collection and an `id`-less Firestore collection. -/
theorem document_store_synthetic_primary_key_witness :
    ("_id" ∉ (mongoTableOfCollection emptyMongoCollection).columns.map
      (·.name)) ∧
    ("id" ∉ (fbTableOfCollection fbNoIdCollection).columns.map (·.name)) :=
  ⟨document_store_synthetic_primary_key.2.2.1 emptyMongoCollection rfl "_id"
     (by decide),
   document_store_synthetic_primary_key.2.2.2 fbNoIdCollection (by decide)
     "id" (by decide)⟩

/-! ## Claim C3 -/

/-- C3: for every relational source table, `convertTable` emits exactly one
relation per foreign key, with `fromTable` the table name, `fromColumn` the
foreign key's column, `toTable`/`toColumn` the referenced table and column,
cardinality `N:1`, and the delete rule passed through unchanged; a unified
column is flagged `isForeignKey` exactly when some foreign key starts at
it; and no relational conversion (`convertTable` or `convertSQLiteTable`)
ever produces a cardinality other than `N:1`. -/
theorem relational_fk_roundtrip :
    (∀ (table : RelTable) (fks : List RelForeignKey) (idxs : List RelIndex),
      (convertTable table fks idxs).relations =
        fks.map (fun fk =>
          { fromTable := table.name, fromColumn := fk.column,
            toTable := fk.referencesTable, toColumn := fk.referencesColumn,
            cardinality := "N:1", onDelete := fk.onDelete,
            onUpdate := fk.onUpdate }) ∧
      (∀ c ∈ (convertTable table fks idxs).columns,
        (c.isForeignKey = true ↔ ∃ fk ∈ fks, fk.column = c.name))) ∧
    (∀ t : SQLiteTable,
      (convertSQLiteTable t).relations =
        t.foreignKeys.map (fun fk =>
          { fromTable := t.name, fromColumn := fk.fromCol,
            toTable := fk.table, toColumn := fk.toCol,
            cardinality := "N:1", onDelete := fk.onDelete,
            onUpdate := fk.onUpdate })) := by
  refine ⟨fun table fks idxs => ⟨rfl, ?_⟩, fun t => rfl⟩
  intro c hc
  simp only [convertTable, List.mem_map] at hc
  obtain ⟨col, -, rfl⟩ := hc
  simpa using fkLookup_isSome_iff fks col.name

/-- C3 witness: the postgres fixture's `users.organization_id →
organizations.id` foreign key with `onDelete=CASCADE` round-trips into
exactly one `N:1` relation, and the column is flagged. -/
theorem relational_fk_roundtrip_witness :
    (convertTable sampleUsersTable sampleUsersTable.foreignKeys
        sampleUsersTable.indexes).relations =
      [{ fromTable := "users", fromColumn := "organization_id",
         toTable := "organizations", toColumn := "id", cardinality := "N:1",
         onDelete := some "CASCADE", onUpdate := none }] ∧
    sampleOrgUnifiedColumn.isForeignKey = true := by
  constructor
  · rw [(relational_fk_roundtrip.1 sampleUsersTable
      sampleUsersTable.foreignKeys sampleUsersTable.indexes).1]
    rfl
  · exact ((relational_fk_roundtrip.1 sampleUsersTable
      sampleUsersTable.foreignKeys sampleUsersTable.indexes).2
      sampleOrgUnifiedColumn (by decide)).mpr
      ⟨{ column := "organization_id", referencesTable := "organizations",
         referencesColumn := "id", onDelete := some "CASCADE",
         onUpdate := none }, by decide, rfl⟩

/-! ## Claim C7 -/

/-- C7: for every relational source table, a unified column's `isUnique`
flag is true if and only if some unique index of that table covers the
column's name (for both the shared relational path and the SQLite path). -/
theorem relational_isUnique_iff_unique_index :
    (∀ (table : RelTable) (fks : List RelForeignKey) (idxs : List RelIndex),
      ∀ c ∈ (convertTable table fks idxs).columns,
        (c.isUnique = true ↔
          ∃ idx ∈ idxs, idx.unique = true ∧ c.name ∈ idx.columns)) ∧
    (∀ t : SQLiteTable, ∀ c ∈ (convertSQLiteTable t).columns,
      (c.isUnique = true ↔
        ∃ idx ∈ t.indexes, idx.unique = true ∧ c.name ∈ idx.columns)) := by
  constructor
  · intro table fks idxs c hc
    simp only [convertTable, List.mem_map] at hc
    obtain ⟨col, -, rfl⟩ := hc
    simpa using mem_uniqueColumnsOf idxs col.name
  · intro t c hc
    simp only [convertSQLiteTable, List.mem_map] at hc
    obtain ⟨col, -, rfl⟩ := hc
    simpa using mem_sqliteUniqueColumnsOf t.indexes col.name

/-- C7 witness: in the mysql fixture, the unique index over `email` makes
the `email` column `isUnique`, while `bio`, covered only by a non-unique
index, is not. -/
theorem relational_isUnique_iff_unique_index_witness :
    (({ name := "email", type := "varchar(255)", nullable := false,
        default := none, isPrimaryKey := false, isUnique := true,
        isForeignKey := false, referencesTable := none,
        referencesColumn := none, onDelete := none, onUpdate := none,
        description := none } : UnifiedColumnInfo).isUnique = true) ∧
    (({ name := "bio", type := "text", nullable := true, default := none,
        isPrimaryKey := false, isUnique := false, isForeignKey := false,
        referencesTable := none, referencesColumn := none, onDelete := none,
        onUpdate := none, description := none } :
        UnifiedColumnInfo).isUnique ≠ true) := by
  constructor
  · exact (relational_isUnique_iff_unique_index.1 sampleAccountsTable
      sampleAccountsTable.foreignKeys sampleAccountsTable.indexes
      _ (by decide)).mpr
      ⟨{ name := "accounts_email_uniq", columns := ["email"], unique := true,
         isPrimaryKey := false }, by decide, rfl, by decide⟩
  · intro hcontra
    have hno : ¬ ∃ idx ∈ sampleAccountsTable.indexes,
        idx.unique = true ∧ ("bio" : String) ∈ idx.columns := by decide
    exact hno ((relational_isUnique_iff_unique_index.1 sampleAccountsTable
      sampleAccountsTable.foreignKeys sampleAccountsTable.indexes
      _ (by decide)).mp hcontra)

/-! ## Claim C6 -/

/-- C6: every relation of every unified schema produced by `convert`, for
every source kind, has a cardinality among the four enumerated values; no
source cardinality string is ever passed through unmapped. -/
theorem convert_cardinality_closure :
    ∀ (s : SourceSchemaInfo) (u : UnifiedSchemaInfo),
      convert s = Except.ok u →
      ∀ t ∈ u.tables, ∀ r ∈ t.relations,
        r.cardinality ∈ knownCardinalities := by
  intro s u hok t ht r hr
  cases s with
  | postgres schema =>
    simp only [convert, Except.ok.injEq] at hok
    subst hok
    simp only [convertPostgres, List.mem_map] at ht
    obtain ⟨tb, -, rfl⟩ := ht
    simp only [convertTable, List.mem_map] at hr
    obtain ⟨fk, -, rfl⟩ := hr
    exact (by decide : ("N:1" : String) ∈ knownCardinalities)
  | mysql schema =>
    simp only [convert, Except.ok.injEq] at hok
    subst hok
    simp only [convertMySQL, List.mem_map] at ht
    obtain ⟨tb, -, rfl⟩ := ht
    simp only [convertTable, List.mem_map] at hr
    obtain ⟨fk, -, rfl⟩ := hr
    exact (by decide : ("N:1" : String) ∈ knownCardinalities)
  | sqlite schema =>
    simp only [convert, Except.ok.injEq] at hok
    subst hok
    simp only [convertSQLite, List.mem_map] at ht
    obtain ⟨tb, -, rfl⟩ := ht
    simp only [convertSQLiteTable, List.mem_map] at hr
    obtain ⟨fk, -, rfl⟩ := hr
    exact (by decide : ("N:1" : String) ∈ knownCardinalities)
  | prisma schema =>
    simp only [convert, Except.ok.injEq] at hok
    subst hok
    simp only [convertPrisma, List.mem_map] at ht
    obtain ⟨tb, -, rfl⟩ := ht
    simp only [List.mem_map] at hr
    obtain ⟨rel, -, rfl⟩ := hr
    exact mapRelationCardinality_mem rel.type
  | drizzle schema =>
    simp only [convert, Except.ok.injEq] at hok
    subst hok
    simp only [convertDrizzle, List.mem_map] at ht
    obtain ⟨tb, -, rfl⟩ := ht
    simp only [List.mem_map] at hr
    obtain ⟨rel, -, rfl⟩ := hr
    exact mapRelationCardinality_mem rel.type
  | mongodb schema =>
    simp only [convert, Except.ok.injEq] at hok
    subst hok
    simp only [convertMongoDB, List.mem_map] at ht
    obtain ⟨c, -, rfl⟩ := ht
    simp [mongoTableOfCollection] at hr
  | firebase schema =>
    simp only [convert, Except.ok.injEq] at hok
    subst hok
    simp only [convertFirebase, List.mem_map] at ht
    obtain ⟨c, -, rfl⟩ := ht
    simp [fbTableOfCollection] at hr
  | unknown t h => simp [convert] at hok

/-- C6 witness: the postgres fixture's single relation has an enumerated
cardinality. -/
theorem convert_cardinality_closure_witness :
    ({ fromTable := "users", fromColumn := "organization_id",
       toTable := "organizations", toColumn := "id", cardinality := "N:1",
       onDelete := some "CASCADE", onUpdate := none } :
       UnifiedRelationInfo).cardinality ∈ knownCardinalities :=
  convert_cardinality_closure (.postgres samplePostgresSchema)
    (convertPostgres samplePostgresSchema) rfl
    (convertTable sampleUsersTable sampleUsersTable.foreignKeys
      sampleUsersTable.indexes) (by decide) _ (by decide)

/-! ## Claim C2 -/

/-- C2 counterexample: `convertFirebase` flags a sampled field named `_id`
as primary key while the table's `primaryKey` list is `["id"]`, so
`isPrimaryKey` is true for a column whose name is not in `primaryKey`. -/
theorem firebase_underscore_id_breaks_pk_iff :
    convert (SourceSchemaInfo.firebase fbIdSchema) =
      Except.ok (convertFirebase fbIdSchema) ∧
    fbTableOfCollection fbIdCollection ∈ (convertFirebase fbIdSchema).tables ∧
    ((fbTableOfCollection fbIdCollection).columns.map
      (fun c => (c.name, c.isPrimaryKey))) = [("_id", true)] ∧
    (fbTableOfCollection fbIdCollection).primaryKey = ["id"] ∧
    "_id" ∉ (fbTableOfCollection fbIdCollection).primaryKey := by
  refine ⟨rfl, by decide, rfl, rfl, by decide⟩

/-- C2 (amended): for every unified schema produced by `convert`, a
column's `isPrimaryKey` flag is true iff its name is in the table's
`primaryKey` list, provided the drizzle source's per-column flags agree
with its `primaryKey` list (which the drizzle parser guarantees for its
own output) and no Firebase collection has a sampled field literally named
`_id`; a Firebase field named `_id` is flagged although `primaryKey` stays
`["id"]`. -/
theorem primary_key_flag_iff_membership :
    ∀ (s : SourceSchemaInfo) (u : UnifiedSchemaInfo),
      convert s = Except.ok u →
      drizzleConsistent s →
      firebaseNoUnderscoreId s →
      ∀ t ∈ u.tables, ∀ c ∈ t.columns,
        (c.isPrimaryKey = true ↔ c.name ∈ t.primaryKey) := by
  intro s u hok hdz hfb t ht c hc
  cases s with
  | postgres schema =>
    simp only [convert, Except.ok.injEq] at hok
    subst hok
    simp only [convertPostgres, List.mem_map] at ht
    obtain ⟨tb, -, rfl⟩ := ht
    simp only [convertTable, List.mem_map] at hc
    obtain ⟨col, -, rfl⟩ := hc
    simp [convertTable]
  | mysql schema =>
    simp only [convert, Except.ok.injEq] at hok
    subst hok
    simp only [convertMySQL, List.mem_map] at ht
    obtain ⟨tb, -, rfl⟩ := ht
    simp only [convertTable, List.mem_map] at hc
    obtain ⟨col, -, rfl⟩ := hc
    simp [convertTable]
  | sqlite schema =>
    simp only [convert, Except.ok.injEq] at hok
    subst hok
    simp only [convertSQLite, List.mem_map] at ht
    obtain ⟨tb, -, rfl⟩ := ht
    simp only [convertSQLiteTable, List.mem_map] at hc
    obtain ⟨col, -, rfl⟩ := hc
    simp [convertSQLiteTable]
  | prisma schema =>
    simp only [convert, Except.ok.injEq] at hok
    subst hok
    simp only [convertPrisma, List.mem_map] at ht
    obtain ⟨tb, -, rfl⟩ := ht
    simp only [List.mem_map] at hc
    obtain ⟨col, -, rfl⟩ := hc
    simp
  | drizzle schema =>
    simp only [convert, Except.ok.injEq] at hok
    subst hok
    simp only [convertDrizzle, List.mem_map] at ht
    obtain ⟨tb, htb, rfl⟩ := ht
    simp only [List.mem_map] at hc
    obtain ⟨col, hcol, rfl⟩ := hc
    exact hdz tb htb col hcol
  | mongodb schema =>
    simp only [convert, Except.ok.injEq] at hok
    subst hok
    simp only [convertMongoDB, List.mem_map] at ht
    obtain ⟨coll, -, rfl⟩ := ht
    simp only [mongoTableOfCollection, List.mem_map] at hc
    obtain ⟨field, -, rfl⟩ := hc
    simp [mongoTableOfCollection]
  | firebase schema =>
    simp only [convert, Except.ok.injEq] at hok
    subst hok
    simp only [convertFirebase, List.mem_map] at ht
    obtain ⟨coll, hcoll, rfl⟩ := ht
    simp only [fbTableOfCollection, List.mem_map] at hc
    obtain ⟨field, hfield, rfl⟩ := hc
    have hne : field.name ≠ "_id" := hfb coll hcoll field hfield
    simp [fbTableOfCollection, hne]
  | unknown t h => simp [convert] at hok

/-- C2 witness: the postgres fixture's `id` column instantiates the
invariant. -/
theorem primary_key_flag_iff_membership_witness :
    sampleIdUnifiedColumn.isPrimaryKey = true ↔
      sampleIdUnifiedColumn.name ∈
        (convertTable sampleUsersTable sampleUsersTable.foreignKeys
          sampleUsersTable.indexes).primaryKey :=
  primary_key_flag_iff_membership (.postgres samplePostgresSchema)
    (convertPostgres samplePostgresSchema) rfl trivial trivial
    (convertTable sampleUsersTable sampleUsersTable.foreignKeys
      sampleUsersTable.indexes) (by decide)
    sampleIdUnifiedColumn (by decide)

/-! ## Claim C1 -/

/-- C1 (evaluation at the failing input): for the pass-1 result with models
`Post` and `Tag`, each holding a list-typed relation field pointing at the
other (list on both sides), pass 2 builds both relations with cardinality
`one-to-many`, not `many-to-many` — the final `isOptional/isList` override
in `parseRelations` clobbers the many-to-many classification its own
comment announces for exactly this shape. -/
theorem prisma_list_both_sides_yields_one_to_many :
    ((parseRelations [prismaModelPost, prismaModelTag]).map
      (fun m => m.relations.map (fun r => (r.fromTable, r.toTable, r.type))) =
      [[("Post", "Tag", "one-to-many")], [("Tag", "Post", "one-to-many")]]) ∧
    prismaModelPost.columns.all (fun c => c.isList && c.isRelation) = true ∧
    prismaModelTag.columns.all (fun c => c.isList && c.isRelation) = true := by
  decide

/-! ## Field-map lemmas for the inference engine -/

theorem fmFind_append_of_none {m m' : List (String × α)} {f : String}
    (h : fmFind m f = none) : fmFind (m ++ m') f = fmFind m' f := by
  induction m with
  | nil => rfl
  | cons e rest ih =>
    obtain ⟨k, a⟩ := e
    by_cases hk : k = f
    · simp [fmFind, hk] at h
    · simp only [List.cons_append]
      simp [fmFind, hk] at h ⊢
      exact ih h

theorem fmFind_append_of_some {m m' : List (String × α)} {f : String}
    {a : α} (h : fmFind m f = some a) : fmFind (m ++ m') f = some a := by
  induction m with
  | nil => simp [fmFind] at h
  | cons e rest ih =>
    obtain ⟨k, b⟩ := e
    by_cases hk : k = f
    · simp [fmFind, hk] at h ⊢
      exact h
    · simp only [List.cons_append]
      simp [fmFind, hk] at h ⊢
      exact ih h

theorem fmFind_fmEnsure (e : α) (m : List (String × α)) (k f : String) :
    fmFind (fmEnsure e m k) f =
      if k = f then some ((fmFind m k).getD e) else fmFind m f := by
  unfold fmEnsure
  cases h : fmFind m k with
  | some a =>
    by_cases hkf : k = f
    · subst hkf
      simp [h]
    · simp [hkf]
  | none =>
    by_cases hkf : k = f
    · subst hkf
      rw [fmFind_append_of_none h, if_pos rfl]
      simp [fmFind, h]
    · cases h2 : fmFind m f with
      | some b => rw [fmFind_append_of_some h2, if_neg hkf]
      | none =>
        rw [fmFind_append_of_none h2, if_neg hkf]
        simp [fmFind, hkf]

theorem fmFind_fmModify (m : List (String × α)) (k : String) (g : α → α)
    (f : String) :
    fmFind (fmModify m k g) f =
      if k = f then (fmFind m f).map g else fmFind m f := by
  induction m with
  | nil => simp [fmFind, fmModify]
  | cons e rest ih =>
    obtain ⟨k', a⟩ := e
    by_cases h1 : k' = k
    · subst h1
      by_cases h2 : k' = f
      · subst h2
        simp [fmFind, fmModify]
      · simp [fmFind, fmModify, h2]
    · by_cases h2 : k' = f
      · subst h2
        have : k ≠ k' := fun h => h1 h.symm
        simp [fmFind, fmModify, h1, this]
      · simp [fmFind, fmModify, h1, h2, ih]

theorem fmFind_update (e : α) (m : List (String × α)) (n : String)
    (g : α → α) (f : String) :
    fmFind (fmModify (fmEnsure e m n) n g) f =
      if n = f then some (g ((fmFind m f).getD e)) else fmFind m f := by
  rw [fmFind_fmModify, fmFind_fmEnsure]
  by_cases h : n = f
  · subst h
    simp
  · simp [h]

theorem fmFind_mem {m : List (String × α)} {f : String} {a : α}
    (h : fmFind m f = some a) : (f, a) ∈ m := by
  induction m with
  | nil => simp [fmFind] at h
  | cons e rest ih =>
    obtain ⟨k, b⟩ := e
    by_cases hk : k = f
    · subst hk
      simp [fmFind] at h
      subst h
      exact List.mem_cons_self _ _
    · simp [fmFind, hk] at h
      exact List.mem_cons_of_mem _ (ih h)

theorem mem_orderedInsert (le : α → α → Bool) (x a : α) (l : List α) :
    a ∈ orderedInsert le x l ↔ a ∈ x :: l := by
  induction l with
  | nil => simp [orderedInsert]
  | cons y ys ih =>
    simp only [orderedInsert]
    split
    · simp
    · simp only [List.mem_cons] at ih ⊢
      rw [ih]
      tauto

theorem mem_insertionSortBy (le : α → α → Bool) (a : α) (l : List α) :
    a ∈ insertionSortBy le l ↔ a ∈ l := by
  induction l with
  | nil => simp [insertionSortBy]
  | cons x xs ih =>
    simp only [insertionSortBy, mem_orderedInsert, List.mem_cons, ih]

/-! ## Bridging lemmas between documents and value sequences -/

theorem mobjHasBinding_iff (o : MObj) (f : String) (p : MVal → Bool) :
    mobjHasBinding o f p = true ↔ ∃ v ∈ mobjValuesAt o f, p v = true := by
  match o with
  | .nil => simp [mobjHasBinding, mobjValuesAt]
  | .cons k v rest =>
    by_cases hk : k = f
    · subst hk
      simp [mobjHasBinding, mobjValuesAt, mobjHasBinding_iff rest k p]
    · simp [mobjHasBinding, mobjValuesAt, hk, mobjHasBinding_iff rest f p]

theorem mobjAllBindings_iff (o : MObj) (f : String) (p : MVal → Bool) :
    mobjAllBindings o f p = true ↔ ∀ v ∈ mobjValuesAt o f, p v = true := by
  match o with
  | .nil => simp [mobjAllBindings, mobjValuesAt]
  | .cons k v rest =>
    by_cases hk : k = f
    · subst hk
      simp [mobjAllBindings, mobjValuesAt, mobjAllBindings_iff rest k p]
    · simp [mobjAllBindings, mobjValuesAt, hk, mobjAllBindings_iff rest f p]

theorem dotted_name_ne {f p k : String} (hd : '.' ∉ f.data) :
    p ++ "." ++ k ≠ f := by
  intro h
  apply hd
  rw [← h]
  simp [String.data_append]

theorem dotted_name_ne_empty (p k : String) : p ++ "." ++ k ≠ "" := by
  intro h
  have := congrArg String.data h
  simp [String.data_append] at this

mutual
theorem analyzeObj_find_dotted (f : String) (hd : '.' ∉ f.data)
    (pfx : String) (hp : pfx ≠ "") (m : MongoFieldMap) (o : MObj) :
    fmFind (analyzeObj pfx m o) f = fmFind m f := by
  match o with
  | .nil => rfl
  | .cons k v rest =>
    show fmFind (analyzeObj pfx (analyzeEntry pfx m k v) rest) f = fmFind m f
    rw [analyzeObj_find_dotted f hd pfx hp (analyzeEntry pfx m k v) rest,
      analyzeEntry_find_dotted f hd pfx hp m k v]

theorem analyzeEntry_find_dotted (f : String) (hd : '.' ∉ f.data)
    (pfx : String) (hp : pfx ≠ "") (m : MongoFieldMap) (k : String)
    (v : MVal) :
    fmFind (analyzeEntry pfx m k v) f = fmFind m f := by
  have hname : (if pfx = "" then k else pfx ++ "." ++ k) = pfx ++ "." ++ k :=
    if_neg hp
  have hne : pfx ++ "." ++ k ≠ f := dotted_name_ne hd
  match v with
  | .vobj sub =>
    show fmFind (analyzeObj (if pfx = "" then k else pfx ++ "." ++ k)
      (fmModify (fmEnsure emptyMongoAcc m (if pfx = "" then k else pfx ++ "." ++ k))
        (if pfx = "" then k else pfx ++ "." ++ k)
        (mongoStepAcc (MVal.vobj sub))) sub) f = fmFind m f
    rw [hname]
    rw [analyzeObj_find_dotted f hd (pfx ++ "." ++ k)
      (dotted_name_ne_empty pfx k) _ sub]
    rw [fmFind_update, if_neg hne]
  | .vnull =>
    show fmFind (fmModify (fmEnsure emptyMongoAcc m _) _ _) f = fmFind m f
    rw [hname, fmFind_update, if_neg hne]
  | .vundef =>
    show fmFind (fmModify (fmEnsure emptyMongoAcc m _) _ _) f = fmFind m f
    rw [hname, fmFind_update, if_neg hne]
  | .vnum x =>
    show fmFind (fmModify (fmEnsure emptyMongoAcc m _) _ _) f = fmFind m f
    rw [hname, fmFind_update, if_neg hne]
  | .vstr s =>
    show fmFind (fmModify (fmEnsure emptyMongoAcc m _) _ _) f = fmFind m f
    rw [hname, fmFind_update, if_neg hne]
  | .vbool b =>
    show fmFind (fmModify (fmEnsure emptyMongoAcc m _) _ _) f = fmFind m f
    rw [hname, fmFind_update, if_neg hne]
  | .varr items =>
    show fmFind (fmModify (fmEnsure emptyMongoAcc m _) _ _) f = fmFind m f
    rw [hname, fmFind_update, if_neg hne]
  | .vObjectId =>
    show fmFind (fmModify (fmEnsure emptyMongoAcc m _) _ _) f = fmFind m f
    rw [hname, fmFind_update, if_neg hne]
  | .vDate =>
    show fmFind (fmModify (fmEnsure emptyMongoAcc m _) _ _) f = fmFind m f
    rw [hname, fmFind_update, if_neg hne]
  | .vBinary =>
    show fmFind (fmModify (fmEnsure emptyMongoAcc m _) _ _) f = fmFind m f
    rw [hname, fmFind_update, if_neg hne]
  | .vDecimal128 =>
    show fmFind (fmModify (fmEnsure emptyMongoAcc m _) _ _) f = fmFind m f
    rw [hname, fmFind_update, if_neg hne]
end

theorem analyzeEntry_find_top (f : String) (hd : '.' ∉ f.data)
    (m : MongoFieldMap) (k : String) (hk : k ≠ "") (v : MVal) :
    fmFind (analyzeEntry "" m k v) f =
      if k = f then mongoStepOption (fmFind m f) v else fmFind m f := by
  have hname : (if ("" : String) = "" then k else "" ++ "." ++ k) = k :=
    if_pos rfl
  match v with
  | .vobj sub =>
    show fmFind (analyzeObj (if ("" : String) = "" then k else "" ++ "." ++ k)
      (fmModify (fmEnsure emptyMongoAcc m
          (if ("" : String) = "" then k else "" ++ "." ++ k))
        (if ("" : String) = "" then k else "" ++ "." ++ k)
        (mongoStepAcc (MVal.vobj sub))) sub) f = _
    rw [hname]
    rw [analyzeObj_find_dotted f hd k hk _ sub]
    rw [fmFind_update]
    rfl
  | .vnull =>
    show fmFind (fmModify (fmEnsure emptyMongoAcc m _) _ _) f = _
    rw [hname, fmFind_update]; rfl
  | .vundef =>
    show fmFind (fmModify (fmEnsure emptyMongoAcc m _) _ _) f = _
    rw [hname, fmFind_update]; rfl
  | .vnum x =>
    show fmFind (fmModify (fmEnsure emptyMongoAcc m _) _ _) f = _
    rw [hname, fmFind_update]; rfl
  | .vstr s =>
    show fmFind (fmModify (fmEnsure emptyMongoAcc m _) _ _) f = _
    rw [hname, fmFind_update]; rfl
  | .vbool b =>
    show fmFind (fmModify (fmEnsure emptyMongoAcc m _) _ _) f = _
    rw [hname, fmFind_update]; rfl
  | .varr items =>
    show fmFind (fmModify (fmEnsure emptyMongoAcc m _) _ _) f = _
    rw [hname, fmFind_update]; rfl
  | .vObjectId =>
    show fmFind (fmModify (fmEnsure emptyMongoAcc m _) _ _) f = _
    rw [hname, fmFind_update]; rfl
  | .vDate =>
    show fmFind (fmModify (fmEnsure emptyMongoAcc m _) _ _) f = _
    rw [hname, fmFind_update]; rfl
  | .vBinary =>
    show fmFind (fmModify (fmEnsure emptyMongoAcc m _) _ _) f = _
    rw [hname, fmFind_update]; rfl
  | .vDecimal128 =>
    show fmFind (fmModify (fmEnsure emptyMongoAcc m _) _ _) f = _
    rw [hname, fmFind_update]; rfl

theorem analyzeObj_find_values (f : String) (hd : '.' ∉ f.data)
    (o : MObj) (hkeys : mobjKeysNonEmpty o = true) (m : MongoFieldMap) :
    fmFind (analyzeObj "" m o) f =
      (mobjValuesAt o f).foldl mongoStepOption (fmFind m f) := by
  match o with
  | .nil => rfl
  | .cons k v rest =>
    have hks : k ≠ "" ∧ mobjKeysNonEmpty rest = true := by
      simpa [mobjKeysNonEmpty] using hkeys
    show fmFind (analyzeObj "" (analyzeEntry "" m k v) rest) f = _
    rw [analyzeObj_find_values f hd rest hks.2 (analyzeEntry "" m k v)]
    rw [analyzeEntry_find_top f hd m k hks.1 v]
    by_cases hkf : k = f
    · subst hkf
      simp [mobjValuesAt]
    · simp [mobjValuesAt, hkf]

theorem foldl_analyzeObj_find_values (f : String) (hd : '.' ∉ f.data)
    (docs : List MObj)
    (hkeys : docs.all mobjKeysNonEmpty = true) (m : MongoFieldMap) :
    fmFind (docs.foldl (fun m doc => analyzeObj "" m doc) m) f =
      ((docs.map (fun d => mobjValuesAt d f)).flatten).foldl mongoStepOption
        (fmFind m f) := by
  induction docs generalizing m with
  | nil => rfl
  | cons d ds ih =>
    simp only [List.all_cons, Bool.and_eq_true] at hkeys
    simp only [List.foldl_cons, List.map_cons, List.flatten_cons,
      List.foldl_append]
    rw [ih hkeys.2, analyzeObj_find_values f hd d hkeys.1 m]

theorem foldl_mongoStepOption_some (vs : List MVal) (a : MongoFieldAcc) :
    vs.foldl mongoStepOption (some a) =
      some (vs.foldl (fun a v => mongoStepAcc v a) a) := by
  induction vs generalizing a with
  | nil => rfl
  | cons v vs ih => simp only [List.foldl_cons, mongoStepOption, Option.getD_some, ih]

theorem foldl_mongoStepOption_none (v : MVal) (vs : List MVal) :
    (v :: vs).foldl mongoStepOption none = some (mongoAccOfValues (v :: vs)) := by
  simp only [List.foldl_cons, mongoStepOption, Option.getD_none,
    foldl_mongoStepOption_some, mongoAccOfValues]

theorem mongoStepAcc_of_int {v : MVal} (hv : isIntVal v = true)
    (a : MongoFieldAcc) :
    (mongoStepAcc v a).types = addIfAbsent a.types "Int" ∧
    (mongoStepAcc v a).nullCount = a.nullCount := by
  cases v <;> simp [isIntVal, getMongoType] at hv
  case vnum x =>
    simp [mongoStepAcc, getMongoType, hv]

theorem mongoStepAcc_of_nullish {v : MVal} (hv : isNullishVal v = true)
    (a : MongoFieldAcc) :
    (mongoStepAcc v a).types = addIfAbsent a.types "null" ∧
    (mongoStepAcc v a).nullCount = a.nullCount + 1 := by
  cases v <;> simp [isNullishVal] at hv <;> simp [mongoStepAcc]

/-- The shapes the `types` set of a field that only ever held
integer-or-null values can take. -/
def intNullTypes (ts : List String) : Prop :=
  ts = [] ∨ ts = ["Int"] ∨ ts = ["null"] ∨ ts = ["Int", "null"] ∨
    ts = ["null", "Int"]

theorem accFold_spec (vs : List MVal) (a : MongoFieldAcc)
    (hclean : ∀ v ∈ vs, isIntVal v = true ∨ isNullishVal v = true)
    (hty : intNullTypes a.types) :
    intNullTypes ((vs.foldl (fun a v => mongoStepAcc v a) a).types) ∧
    (("Int" ∈ (vs.foldl (fun a v => mongoStepAcc v a) a).types) ↔
      ("Int" ∈ a.types ∨ ∃ v ∈ vs, isIntVal v = true)) ∧
    ((vs.foldl (fun a v => mongoStepAcc v a) a).nullCount > 0 ↔
      (a.nullCount > 0 ∨ ∃ v ∈ vs, isNullishVal v = true)) := by
  induction vs generalizing a with
  | nil => simpa using hty
  | cons v vs ih =>
    have hv := hclean v (List.mem_cons_self v vs)
    have hclean' : ∀ w ∈ vs, isIntVal w = true ∨ isNullishVal w = true :=
      fun w hw => hclean w (List.mem_cons_of_mem v hw)
    simp only [List.foldl_cons]
    rcases hv with hint | hnull
    · obtain ⟨hts, hnc⟩ := mongoStepAcc_of_int hint a
      have hty' : intNullTypes (mongoStepAcc v a).types := by
        rw [hts]
        rcases hty with h | h | h | h | h <;> rw [h] <;>
          simp [intNullTypes, addIfAbsent]
      obtain ⟨h1, h2, h3⟩ := ih (mongoStepAcc v a) hclean' hty'
      refine ⟨h1, ?_, ?_⟩
      · rw [h2, hts]
        constructor
        · rintro (hmem | hex)
          · exact Or.inr ⟨v, List.mem_cons_self v vs, hint⟩
          · obtain ⟨w, hw, hiw⟩ := hex
            exact Or.inr ⟨w, List.mem_cons_of_mem v hw, hiw⟩
        · rintro (hmem | ⟨w, hw, hiw⟩)
          · exact Or.inl (mem_addIfAbsent.mpr (Or.inl hmem))
          · exact Or.inl (mem_addIfAbsent.mpr (Or.inr rfl))
      · rw [h3, hnc]
        constructor
        · rintro (hnc0 | hex)
          · exact Or.inl hnc0
          · obtain ⟨w, hw, hnw⟩ := hex
            exact Or.inr ⟨w, List.mem_cons_of_mem v hw, hnw⟩
        · rintro (hnc0 | ⟨w, hw, hnw⟩)
          · exact Or.inl hnc0
          · rcases List.mem_cons.mp hw with rfl | hw'
            · rw [mongoStepAcc_of_int hint a |>.2] at *
              refine Or.inl ?_
              cases w <;> simp [isIntVal, getMongoType] at hint
              simp [isNullishVal] at hnw
            · exact Or.inr ⟨w, hw', hnw⟩
    · obtain ⟨hts, hnc⟩ := mongoStepAcc_of_nullish hnull a
      have hty' : intNullTypes (mongoStepAcc v a).types := by
        rw [hts]
        rcases hty with h | h | h | h | h <;> rw [h] <;>
          simp [intNullTypes, addIfAbsent]
      obtain ⟨h1, h2, h3⟩ := ih (mongoStepAcc v a) hclean' hty'
      refine ⟨h1, ?_, ?_⟩
      · rw [h2, hts]
        constructor
        · rintro (hmem | hex)
          · rcases mem_addIfAbsent.mp hmem with hmem' | habs
            · exact Or.inl hmem'
            · exact absurd habs (by decide)
          · obtain ⟨w, hw, hiw⟩ := hex
            exact Or.inr ⟨w, List.mem_cons_of_mem v hw, hiw⟩
        · rintro (hmem | ⟨w, hw, hiw⟩)
          · exact Or.inl (mem_addIfAbsent.mpr (Or.inl hmem))
          · rcases List.mem_cons.mp hw with rfl | hw'
            · exact absurd hiw (by cases w <;>
                simp [isNullishVal] at hnull <;>
                simp [isIntVal, getMongoType])
            · exact Or.inr ⟨w, hw', hiw⟩
      · rw [h3, hnc]
        constructor
        · rintro (hnc0 | hex)
          · exact Or.inr ⟨v, List.mem_cons_self v vs, hnull⟩
          · obtain ⟨w, hw, hnw⟩ := hex
            exact Or.inr ⟨w, List.mem_cons_of_mem v hw, hnw⟩
        · rintro (hnc0 | ⟨w, hw, hnw⟩) <;> exact Or.inl (Nat.succ_pos _)

/-- C4 (amended): for every document sample and top-level field `f`
(nonempty, dot-free name, in documents whose top-level keys are nonempty)
that holds an integer in at least one sampled document and, wherever the
key is present, holds only integers or explicit nulls, the inference
engine outputs a field descriptor named `f` with type `Int` whose
`nullable` flag is true iff the field explicitly holds `null`/`undefined`
in at least one sampled document — a document from which the key is
entirely absent is never visited for that field, so absence alone leaves
`nullable = false`. -/
theorem mongo_int_field_descriptor_spec :
    ∀ (docs : List MObj) (f : String),
      f ≠ "" →
      '.' ∉ f.data →
      docs.all mobjKeysNonEmpty = true →
      docs.any (fun d => mobjHasBinding d f isIntVal) = true →
      docs.all (fun d => mobjAllBindings d f
        (fun v => isIntVal v || isNullishVal v)) = true →
      ∃ fd ∈ mongoInferSchemaFromDocuments docs,
        fd.name = f ∧ fd.type = "Int" ∧
        fd.nullable = docs.any (fun d => mobjHasBinding d f isNullishVal) := by
  intro docs f hf hd hkeys hint hclean
  obtain ⟨d0, ds, rfl⟩ : ∃ d0 ds, docs = d0 :: ds := by
    cases docs with
    | nil => simp at hint
    | cons d ds => exact ⟨d, ds, rfl⟩
  set vs := ((d0 :: ds).map (fun d => mobjValuesAt d f)).flatten with hvs
  have hint' : ∃ v ∈ vs, isIntVal v = true := by
    rw [List.any_eq_true] at hint
    obtain ⟨d, hdmem, hbind⟩ := hint
    obtain ⟨v, hv, hp⟩ := (mobjHasBinding_iff d f isIntVal).mp hbind
    exact ⟨v, by
      rw [hvs]
      exact List.mem_flatten.mpr ⟨_, List.mem_map_of_mem _ hdmem, hv⟩, hp⟩
  have hclean' : ∀ v ∈ vs, isIntVal v = true ∨ isNullishVal v = true := by
    intro v hv
    rw [hvs] at hv
    obtain ⟨l, hl, hvl⟩ := List.mem_flatten.mp hv
    obtain ⟨d, hdmem, rfl⟩ := List.mem_map.mp hl
    have hall := (List.all_eq_true.mp hclean) d hdmem
    have h2 := (mobjAllBindings_iff d f _).mp hall v hvl
    simpa using h2
  have hnulliff : (∃ v ∈ vs, isNullishVal v = true) ↔
      ((d0 :: ds).any (fun d => mobjHasBinding d f isNullishVal) = true) := by
    rw [List.any_eq_true]
    constructor
    · rintro ⟨v, hv, hnv⟩
      rw [hvs] at hv
      obtain ⟨l, hl, hvl⟩ := List.mem_flatten.mp hv
      obtain ⟨d, hdmem, rfl⟩ := List.mem_map.mp hl
      exact ⟨d, hdmem, (mobjHasBinding_iff d f _).mpr ⟨v, hvl, hnv⟩⟩
    · rintro ⟨d, hdmem, hbind⟩
      obtain ⟨v, hvl, hnv⟩ := (mobjHasBinding_iff d f _).mp hbind
      exact ⟨v, by
        rw [hvs]
        exact List.mem_flatten.mpr ⟨_, List.mem_map_of_mem _ hdmem, hvl⟩, hnv⟩
  have hfind : fmFind ((d0 :: ds).foldl (fun m doc => analyzeObj "" m doc)
      ([] : MongoFieldMap)) f = vs.foldl mongoStepOption none := by
    have h := foldl_analyzeObj_find_values f hd (d0 :: ds) hkeys []
    simpa [hvs] using h
  obtain ⟨v0, vs', hvs0⟩ : ∃ v0 vs', vs = v0 :: vs' := by
    obtain ⟨v, hv, -⟩ := hint'
    cases hvsc : vs with
    | nil => rw [hvsc] at hv; simp at hv
    | cons a b => exact ⟨a, b, rfl⟩
  rw [hvs0, foldl_mongoStepOption_none] at hfind
  have hspec := accFold_spec (v0 :: vs') emptyMongoAcc
    (by rw [← hvs0]; exact hclean') (Or.inl rfl)
  rw [← hvs0] at hspec
  set acc := mongoAccOfValues vs with hacc
  have haccfold : acc = vs.foldl (fun a v => mongoStepAcc v a) emptyMongoAcc := rfl
  rw [← haccfold] at hspec
  have hIntMem : "Int" ∈ acc.types := by
    rw [hspec.2.1]
    exact Or.inr hint'
  have hty : acc.types = ["Int"] ∨ acc.types = ["Int", "null"] ∨
      acc.types = ["null", "Int"] := by
    rcases hspec.1 with h | h | h | h | h
    · rw [h] at hIntMem; simp at hIntMem
    · exact Or.inl h
    · rw [h] at hIntMem; simp at hIntMem
    · exact Or.inr (Or.inl h)
    · exact Or.inr (Or.inr h)
  have htype : determinePrimaryType acc.types = "Int" := by
    rcases hty with h | h | h <;> rw [h] <;> rfl
  have hnull2 : (acc.nullCount > 0) ↔
      ((d0 :: ds).any (fun d => mobjHasBinding d f isNullishVal) = true) := by
    rw [hspec.2.2]
    simp only [emptyMongoAcc, gt_iff_lt, Nat.lt_irrefl, false_or]
    exact hnulliff
  have hmem : (f, acc) ∈ (d0 :: ds).foldl (fun m doc => analyzeObj "" m doc)
      ([] : MongoFieldMap) := fmFind_mem (by rw [hfind]; rw [← hvs0])
  refine ⟨mongoFieldInfoOfEntry (f, acc), ?_, rfl, htype, ?_⟩
  · show mongoFieldInfoOfEntry (f, acc) ∈
      mongoInferSchemaFromDocuments (d0 :: ds)
    simp only [mongoInferSchemaFromDocuments]
    rw [mem_insertionSortBy]
    exact List.mem_map_of_mem _ hmem
  · show decide (acc.nullCount > 0) = _
    rcases Bool.eq_false_or_eq_true
        ((d0 :: ds).any (fun d => mobjHasBinding d f isNullishVal)) with
        hany | hany <;> rw [hany]
    · exact decide_eq_true (hnull2.mpr hany)
    · exact decide_eq_false fun hp => by
        have := hnull2.mp hp
        rw [this] at hany
        exact absurd hany (by simp)

/-- C4 counterexample: with `age` holding the integer 30 in one sampled
document and being entirely absent (key not present) from the other, the
engine outputs type `Int` but `nullable = false`: an absent key is never
visited by `analyzeObject` (it walks `Object.entries`), so no
null/undefined occurrence is recorded. -/
theorem mongo_absent_key_not_nullable :
    mongoInferSchemaFromDocuments ageAbsentDocs =
      [{ name := "age", type := "Int", nullable := false, isArray := false,
         sampleValues := [MVal.vnum 30] }] := rfl

/-- C4 witness: `age` integer in one document and explicitly `null` in
another yields the `Int` descriptor with `nullable = true`. -/
theorem mongo_int_field_descriptor_spec_witness :
    (("age" : String) ≠ "") ∧
    (∃ fd ∈ mongoInferSchemaFromDocuments ageNullDocs,
      fd.name = "age" ∧ fd.type = "Int" ∧ fd.nullable = true) := by
  refine ⟨by decide, ?_⟩
  obtain ⟨fd, hmem, hname, htype, hnul⟩ :=
    mongo_int_field_descriptor_spec ageNullDocs "age" (by decide) (by decide)
      rfl rfl rfl
  exact ⟨fd, hmem, hname, htype, by rw [hnul]; rfl⟩
